import Mathlib

/-!
A shallow embedding, in Lean 4, of the `recursive-file-publisher` program
(`config.py`, `scanner.py`, `rabbit.py`, `cli.py`), together with theorems
settling the specification's claims about it.

Conventions of the embedding:
* Python `int` becomes `Int` (or `Nat` where the source value is a count or
  size that the OS reports as non-negative); Python `str` becomes `String`.
* Fallible operations return `Option`/`Except`.
* External effects (the environment, the filesystem, the AMQP transport)
  are passed in explicitly as data: an environment map, a filesystem tree,
  and a schedule of transport outcomes.
-/

namespace RFP

/-! ## config.py — `RabbitConfig` and `RabbitConfig.from_env`

`from_env` resolves each field as `explicit or os.getenv(NAME, default)`,
using Python `or`, whose left operand wins only when truthy (non-empty
string, non-zero integer). -/

/-- The process environment: a map from variable names to values. -/
def EnvMap : Type := String → Option String

/-- `os.getenv(name, dflt)`. -/
def getenvD (env : EnvMap) (name dflt : String) : String :=
  (env name).getD dflt

/-- Python `x or y` for an optional string argument `x`
(`None` and `""` are falsy). -/
def pyOrStr (x : Option String) (y : String) : String :=
  match x with
  | none => y
  | some v => if v = "" then y else v

/-- Decimal digit value of a character, if it is a digit. -/
def digitVal (c : Char) : Option Nat :=
  if c.isDigit then some (c.toNat - 48) else none

/-- Accumulate the value of a run of decimal digits; fails on a non-digit. -/
def digitsValAux : Nat → List Char → Option Nat
  | acc, [] => some acc
  | acc, c :: cs =>
    match digitVal c with
    | some d => digitsValAux (acc * 10 + d) cs
    | none => none

/-- Python `int(s)` on a plain decimal literal (optional sign, digits);
`none` models a raised `ValueError`. -/
def pyInt (s : String) : Option Int :=
  match s.data with
  | [] => none
  | '-' :: cs =>
    match cs with
    | [] => none
    | _ => (digitsValAux 0 cs).map (fun n => -(n : Int))
  | '+' :: cs =>
    match cs with
    | [] => none
    | _ => (digitsValAux 0 cs).map Int.ofNat
  | cs => (digitsValAux 0 cs).map Int.ofNat

/-- Configuration for the RabbitMQ connection (`config.py`, `RabbitConfig`). -/
structure RabbitConfig where
  host : String
  port : Int
  username : String
  password : String
  virtual_host : String
  queue : String
deriving DecidableEq

/-- `port or int(os.getenv("RABBITMQ_PORT", "5672"))`: Python `or` on the
optional integer argument (`None` and `0` are falsy); the right operand, and
hence the `int` conversion, is evaluated only when the left is falsy. -/
def resolvePort (env : EnvMap) (port : Option Int) : Option Int :=
  match port with
  | some v => if v = 0 then pyInt (getenvD env "RABBITMQ_PORT" "5672") else some v
  | none => pyInt (getenvD env "RABBITMQ_PORT" "5672")

/-- `RabbitConfig.from_env`: each field is `explicit or env or default`;
`none` models the `ValueError` escaping from `int()` on a malformed
`RABBITMQ_PORT`. -/
def RabbitConfig.from_env (env : EnvMap) (host : Option String) (port : Option Int)
    (username : Option String) (password : Option String)
    (virtual_host : Option String) (queue : Option String) : Option RabbitConfig :=
  (resolvePort env port).map fun p =>
    { host := pyOrStr host (getenvD env "RABBITMQ_HOST" "localhost")
      port := p
      username := pyOrStr username (getenvD env "RABBITMQ_USER" "guest")
      password := pyOrStr password (getenvD env "RABBITMQ_PASSWORD" "guest")
      virtual_host := pyOrStr virtual_host (getenvD env "RABBITMQ_VHOST" "/")
      queue := pyOrStr queue (getenvD env "RABBITMQ_QUEUE" "file_events") }

/-- An environment with no RabbitMQ variables set. -/
def emptyEnv : EnvMap := fun _ => none

/-! ## rabbit.py — error type shared with the orchestrator model -/

/-- The transport errors `publish_json` catches: `AMQPConnectionError` and
`AMQPChannelError` (`pika.exceptions`). The code distinguishes instances. -/
inductive AmqpErr where
  | connErr (code : Nat)
  | chanErr (code : Nat)
deriving DecidableEq

/-- Decidable equality for publish outcomes. -/
def amqpResDecEq : DecidableEq (Except AmqpErr Unit) := fun a b =>
  match a, b with
  | .ok (), .ok () => isTrue rfl
  | .error e1, .error e2 =>
    if h : e1 = e2 then isTrue (by rw [h]) else isFalse (by intro hc; cases hc; exact h rfl)
  | .ok _, .error _ => isFalse (by intro hc; cases hc)
  | .error _, .ok _ => isFalse (by intro hc; cases hc)

instance : DecidableEq (Except AmqpErr Unit) := amqpResDecEq

/-! ## cli.py — the orchestrator `main`

`main` is modelled over an explicit description of the world it runs in:
whether the root exists and is a directory, whether `connect()` succeeds,
the per-file outcomes the loop body observes, and how iteration ends
(normally, by a fatal scanner error, or by `KeyboardInterrupt`). -/

/-- Outcome of the loop body for one path yielded by `iter_files`:
either `file_to_message` raises, or it returns a message and (when not in
dry-run mode) `publish_json` returns the given result. -/
inductive ItemEnv where
  | extractFail
  | extractOk (pub : Except AmqpErr Unit)
deriving DecidableEq

/-- The two counters of `main`. -/
structure Counts where
  files : Nat
  errors : Nat
deriving DecidableEq

/-- One iteration of the processing loop: the `try`/`except` body.
Any error is caught, counted, and the loop moves on. In dry-run mode the
message is only logged, so the publish outcome is never consulted. -/
def stepItem (dryRun : Bool) (c : Counts) : ItemEnv → Counts
  | .extractFail => { c with errors := c.errors + 1 }
  | .extractOk pub =>
    if dryRun then { c with files := c.files + 1 }
    else
      match pub with
      | .ok _ => { c with files := c.files + 1 }
      | .error _ => { c with errors := c.errors + 1 }

/-- The processing loop over every path the walker yields. -/
def runItems (dryRun : Bool) (items : List ItemEnv) (c : Counts) : Counts :=
  items.foldl (stepItem dryRun) c

/-- Whether the loop body counts the item as processed (true) or as an
error (false). -/
def itemOk (dryRun : Bool) : ItemEnv → Bool
  | .extractFail => false
  | .extractOk pub =>
    if dryRun then true
    else
      match pub with
      | .ok _ => true
      | .error _ => false

/-- How the iteration over `iter_files` ends. -/
inductive ScanEnd where
  | normal
  | fatal
  | interrupt
deriving DecidableEq

/-- The world `main` runs against. -/
structure RunEnv where
  rootExists : Bool
  rootIsDir : Bool
  dryRun : Bool
  connectOk : Bool
  items : List ItemEnv
  ending : ScanEnd

/-- `cli.main`: validates the root, connects unless dry-run, runs the loop,
and maps the outcome to the process exit status. -/
def main (e : RunEnv) : Int :=
  if ¬ e.rootExists then 1
  else if ¬ e.rootIsDir then 1
  else if ¬ e.dryRun ∧ ¬ e.connectOk then 1
  else
    match e.ending with
    | .interrupt => 130
    | .fatal => 1
    | .normal =>
      let c := runItems e.dryRun e.items ⟨0, 0⟩
      if c.errors = 0 then 0 else 1

/-! ## scanner.py — the filesystem model and `iter_files`

The filesystem is a finite tree. A directory entry is a regular file, a
broken symbolic link (`is_symlink()` true, `exists()` false), or a
directory with children. A symlink whose target resolves behaves, for
`rglob`/`is_dir`/`exists`, like the entry it points at, so it needs no
constructor of its own. Paths are lists of components. -/

/-- A node of the directory tree. -/
inductive FsNode where
  | file (fname : String)
  | brokenLink (fname : String)
  | dir (fname : String) (children : List FsNode)

/-- The entry's own name (final path component). -/
def FsNode.name : FsNode → String
  | .file n => n
  | .brokenLink n => n
  | .dir n _ => n

/-- `root.is_dir()`. -/
def isDirNode : FsNode → Bool
  | .dir _ _ => true
  | _ => false

/-- Look an entry up by name in a directory listing. -/
def findChild (ch : List FsNode) (x : String) : Option FsNode :=
  ch.find? (fun c => c.name == x)

/-- Resolve a relative path inside a node (`[]` names the node itself). -/
def resolveIn : FsNode → List String → Option FsNode
  | t, [] => some t
  | .dir _ ch, x :: xs =>
    match findChild ch x with
    | some c => resolveIn c xs
    | none => none
  | _, _ :: _ => none

/-- The relative path resolves to a regular file inside the node. -/
def isFileIn (t : FsNode) (q : List String) : Bool :=
  match resolveIn t q with
  | some (.file _) => true
  | _ => false

/-- The relative path resolves to a directory inside the node. -/
def isDirIn (t : FsNode) (q : List String) : Bool :=
  match resolveIn t q with
  | some (.dir _ _) => true
  | _ => false

/-- The relative path resolves to a broken symlink inside the node. -/
def isBrokenIn (t : FsNode) (q : List String) : Bool :=
  match resolveIn t q with
  | some (.brokenLink _) => true
  | _ => false

mutual

/-- Paths (relative to the node's parent) that the `rglob` loop of
`iter_files` yields from the subtree rooted at one entry: regular files
are yielded, directories are descended into but not yielded, broken
symlinks are skipped with a warning. -/
def filesUnder : FsNode → List (List String)
  | .file n => [[n]]
  | .brokenLink _ => []
  | .dir n ch => (filesUnderL ch).map (fun p => n :: p)

/-- The paths yielded from a directory listing, in listing order. -/
def filesUnderL : List FsNode → List (List String)
  | [] => []
  | c :: cs => filesUnder c ++ filesUnderL cs

end

mutual

/-- Well-formedness of a tree: sibling names are distinct at every level
(as the filesystem guarantees). -/
def wfNames : FsNode → Bool
  | .file _ => true
  | .brokenLink _ => true
  | .dir _ ch => nodupByName ch && wfNamesL ch

/-- Distinctness of the names in one directory listing. -/
def nodupByName : List FsNode → Bool
  | [] => true
  | c :: cs => cs.all (fun d => d.name != c.name) && nodupByName cs

/-- Well-formedness of every tree in a listing. -/
def wfNamesL : List FsNode → Bool
  | [] => true
  | c :: cs => wfNames c && wfNamesL cs

end

/-- The error `iter_files` raises on a non-directory root
(`ValueError("Root path is not a directory: ...")`). -/
inductive ScanErr where
  | notADirectory
deriving DecidableEq

/-- A Python generator object: forcing it (the first `next`) runs the body,
which either raises or produces the yielded sequence. -/
structure Gen where
  force : Except ScanErr (List (List String))

/-- The body of the generator function `iter_files`: check the root, then
walk. Executed on the first `next`, not at call time. -/
def iterFilesBody : FsNode → Except ScanErr (List (List String))
  | .dir _ ch => .ok (filesUnderL ch)
  | _ => .error .notADirectory

/-- Calling the generator function `iter_files`: Python executes none of
the body at call time — the call always returns a generator object. -/
def iterFilesCall (root : FsNode) : Except ScanErr Gen :=
  .ok ⟨iterFilesBody root⟩

/-! ## rabbit.py — `RabbitClient`: connect, `_ensure_connection`, `publish_json`

The transport is modelled by explicit fault schedules: each call the client
makes into pika either succeeds or raises a chosen error. State updates on
partial failure follow Python assignment order (a field keeps its old value
if the call producing its new value raised). Per AMQP semantics, an
`AMQPChannelError` raised by `queue_declare` leaves that channel closed
(a channel-level exception closes the channel), and a dropped connection is
observed as closed together with its channel. Every observable transport
action is recorded in a trace, tagged with the identity of the connection
it happens on; the configured queue is the single queue of the run. -/

/-- Observable transport events. -/
inductive Ev where
  | openConn (id : Nat)
  | openChan (id : Nat)
  | declareQueue (id : Nat) (durable : Bool)
  | publish (id : Nat)
deriving DecidableEq

/-- The client's connection state: `_connection` and `_channel` are absent
or carry an `is_closed` flag; successive connections get fresh identities. -/
structure RState where
  conn : Option (Nat × Bool)
  chan : Option Bool
  nextId : Nat
deriving DecidableEq

/-- A client that has never connected (`_connection = _channel = None`). -/
def initialState : RState := ⟨none, none, 0⟩

/-- Identity of the current connection (0 if none). -/
def connId (st : RState) : Nat :=
  match st.conn with
  | some (i, _) => i
  | none => 0

/-- Outcome the transport gives to one `connect()` call. -/
inductive ConnectFault where
  | ok
  | failConn (e : AmqpErr)
  | failChan (e : AmqpErr)
  | failDeclare (e : AmqpErr)
deriving DecidableEq

/-- Outcome the transport gives to the channel-reopen path of
`_ensure_connection`. -/
inductive ReopenFault where
  | ok
  | failChan (e : AmqpErr)
  | failDeclare (e : AmqpErr)
deriving DecidableEq

/-- Environment of one iteration of the `publish_json` retry loop: what the
broker/network did to the connection since the last attempt, and the
outcomes of the transport calls this attempt makes. -/
structure AttemptEnv where
  connDropped : Bool
  chanDropped : Bool
  connectRes : ConnectFault
  reopenRes : ReopenFault
  publishRes : Option AmqpErr
deriving DecidableEq

/-- Degradation observed at the start of an attempt: a dropped connection
is seen as closed, and closes its channel; a dropped channel is seen as
closed. -/
def degrade (a : AttemptEnv) (st : RState) : RState :=
  let st1 := if a.connDropped then
    { st with conn := st.conn.map (fun p => (p.1, true)), chan := st.chan.map (fun _ => true) }
    else st
  if a.chanDropped then { st1 with chan := st1.chan.map (fun _ => true) } else st1

/-- `connect()`: open a transport connection, open a channel over it, then
declare the configured queue durable. -/
def connectStep (f : ConnectFault) (st : RState) : Except AmqpErr Unit × RState × List Ev :=
  match f with
  | .failConn e => (.error e, st, [])
  | .failChan e =>
    (.error e, { st with conn := some (st.nextId, false), nextId := st.nextId + 1 },
      [.openConn st.nextId])
  | .failDeclare e =>
    (.error e, { conn := some (st.nextId, false), chan := some true, nextId := st.nextId + 1 },
      [.openConn st.nextId, .openChan st.nextId])
  | .ok =>
    (.ok (), { conn := some (st.nextId, false), chan := some false, nextId := st.nextId + 1 },
      [.openConn st.nextId, .openChan st.nextId, .declareQueue st.nextId true])

/-- The channel-reopen arm of `_ensure_connection`: reopen a channel on the
live connection and redeclare the queue durable. -/
def reopenStep (f : ReopenFault) (st : RState) : Except AmqpErr Unit × RState × List Ev :=
  match f with
  | .failChan e => (.error e, st, [])
  | .failDeclare e => (.error e, { st with chan := some true }, [.openChan (connId st)])
  | .ok =>
    (.ok (), { st with chan := some false },
      [.openChan (connId st), .declareQueue (connId st) true])

/-- `_ensure_connection`: reconnect if the connection is absent or closed,
else reopen the channel if it is absent or closed, else do nothing. -/
def ensureStep (a : AttemptEnv) (st : RState) : Except AmqpErr Unit × RState × List Ev :=
  match st.conn with
  | none => connectStep a.connectRes st
  | some (_, true) => connectStep a.connectRes st
  | some (_, false) =>
    match st.chan with
    | none => reopenStep a.reopenRes st
    | some true => reopenStep a.reopenRes st
    | some false => (.ok (), st, [])

/-- One iteration of the retry loop: observe degradation, run
`_ensure_connection`, then `basic_publish` on the current channel. -/
def attemptStep (a : AttemptEnv) (st : RState) : Except AmqpErr Unit × RState × List Ev :=
  let st0 := degrade a st
  match ensureStep a st0 with
  | (.error e, st1, tr) => (.error e, st1, tr)
  | (.ok _, st1, tr) =>
    match a.publishRes with
    | some e => (.error e, st1, tr ++ [.publish (connId st1)])
    | none => (.ok (), st1, tr ++ [.publish (connId st1)])

/-- Result of a `publish_json` call. -/
structure PubOut where
  result : Except AmqpErr Unit
  state : RState
  trace : List Ev
  attempts : Nat
deriving DecidableEq

/-- The `for attempt in range(retry_count)` loop: a failing attempt
re-raises when it was the last one, else the loop continues; falling out of
the loop (zero iterations) returns normally. -/
def publishLoop (env : Nat → AttemptEnv) (idx : Nat) (st : RState) : Nat → PubOut
  | 0 => ⟨.ok (), st, [], 0⟩
  | r + 1 =>
    match attemptStep (env idx) st with
    | (.ok _, st1, tr) => ⟨.ok (), st1, tr, 1⟩
    | (.error e, st1, tr) =>
      if r = 0 then ⟨.error e, st1, tr, 1⟩
      else
        let rest := publishLoop env (idx + 1) st1 r
        ⟨rest.result, rest.state, tr ++ rest.trace, rest.attempts + 1⟩

/-- `publish_json(payload, retry_count)`. The payload is serialized once
before the loop (its bytes are modelled by `dumpsRecord` below and do not
influence control flow); `range` of a non-positive count is empty. -/
def publishJson (env : Nat → AttemptEnv) (retryCount : Int) (st : RState) : PubOut :=
  publishLoop env 0 st retryCount.toNat

/-- One record published during a run (default retry ceiling 3, as the
orchestrator calls `publish_json`), accumulating the trace. -/
def runStep (acc : RState × List Ev) (env : Nat → AttemptEnv) : RState × List Ev :=
  let o := publishJson env 3 acc.1
  (o.state, acc.2 ++ o.trace)

/-- A run of the publisher as the orchestrator drives it: one `connect()`
at startup, then one `publish_json` per record. -/
def runClient (cf : ConnectFault) (pubs : List (Nat → AttemptEnv)) : RState × List Ev :=
  pubs.foldl runStep (connectStep cf initialState).2

/-! ### The declared-before-publish trace property -/

/-- Accumulate the identities of connections on which the queue has been
declared durable. -/
def declStep (d : List Nat) (e : Ev) : List Nat :=
  match e with
  | .declareQueue i true => i :: d
  | _ => d

/-- All durable declarations of a trace, added to an initial set. -/
def addDecls (d : List Nat) (tr : List Ev) : List Nat :=
  tr.foldl declStep d

/-- One step of the trace check: a publish is in order only on a connection
already holding a durable declaration. -/
def okStep (p : List Nat × Bool) (e : Ev) : List Nat × Bool :=
  (declStep p.1 e,
    p.2 && (match e with
            | .publish i => p.1.contains i
            | _ => true))

/-- The trace property: starting from connections `d` already declared,
every publish event is preceded by a durable declaration on the same
connection. -/
def okFrom (d : List Nat) (tr : List Ev) : Bool :=
  (tr.foldl okStep (d, true)).2

/-- The client-state invariant carried through the proofs: if both the
connection and its channel are open, the queue has been declared durable on
that connection; and a channel is never open while its connection is
absent or closed. -/
def StInv (d : List Nat) (st : RState) : Prop :=
  (∀ i, st.conn = some (i, false) → st.chan = some false → d.contains i = true) ∧
  (∀ i, st.conn = some (i, true) → st.chan ≠ some false) ∧
  (st.conn = none → st.chan ≠ some false)

/-! ## scanner.py — `file_to_message`

`file_to_message` reads `path.stat()` (which may raise `OSError`), resolves
the path, converts `st_mtime` with `datetime.fromtimestamp(..).isoformat()`
(which raises when the timestamp falls outside the year range 1..9999), and
builds the four-field record. The clock is modelled in whole seconds at UTC
offset zero (the local-time offset only shifts the value, not the shape of
the ISO string), with non-negative timestamps (files dated before the epoch
are out of scope of the model). -/

/-- A Python `pathlib.Path`: absolute or relative, with its components. -/
structure PyPath where
  absolute : Bool
  parts : List String
deriving DecidableEq

/-- `path.name`: the final path component (empty for an empty path). -/
def PyPath.pyName (p : PyPath) : String :=
  (p.parts.getLast?).getD ""

/-- The metadata `stat()` reports. -/
structure FileStat where
  st_size : Nat
  st_mtime : Nat
deriving DecidableEq

/-- Normalize path components against a stack: `.` is dropped, `..` pops
(and stays at the root when the stack is empty, as `resolve` does). -/
def normStack (stack : List String) : List String → List String
  | [] => stack.reverse
  | c :: rest =>
    if c = "." then normStack stack rest
    else if c = ".." then normStack (stack.drop 1) rest
    else normStack (c :: stack) rest

/-- `path.resolve()`: make the path absolute against the working directory
and normalize it. -/
def resolvePath (cwd : List String) (p : PyPath) : List String :=
  if p.absolute then normStack [] p.parts else normStack [] (cwd ++ p.parts)

/-- Render absolute components as a POSIX path string. -/
def renderAbs (comps : List String) : String :=
  "/" ++ String.intercalate "/" comps

/-- The string begins with the path separator. -/
def startsWithSlash (s : String) : Bool :=
  match s.data with
  | '/' :: _ => true
  | _ => false

/-! ### The Gregorian calendar, as `datetime.fromtimestamp` computes it -/

/-- Gregorian leap-year rule. -/
def isLeap (y : Nat) : Bool :=
  (y % 4 = 0 && y % 100 != 0) || y % 400 = 0

/-- Days in a year. -/
def daysInYear (y : Nat) : Nat :=
  if isLeap y then 366 else 365

/-- Days in a month (1..12). -/
def daysInMonth (leap : Bool) (m : Nat) : Nat :=
  if m = 2 then (if leap then 29 else 28)
  else if m = 4 ∨ m = 6 ∨ m = 9 ∨ m = 11 then 30
  else 31

/-- Walk years forward from `y`, consuming whole years of days; the fuel
dominates the day count so the walk always lands inside a year. -/
def yearFromF : Nat → Nat → Nat → Nat × Nat
  | 0, y, d => (y, d)
  | fuel + 1, y, d =>
    if d < daysInYear y then (y, d) else yearFromF fuel (y + 1) (d - daysInYear y)

/-- Year and 0-based day-of-year of a 0-based day count since 1970-01-01. -/
def yearFrom (d : Nat) : Nat × Nat :=
  yearFromF (d + 1) 1970 d

/-- Walk months forward from month `m`, consuming whole months of days. -/
def monthFromF : Nat → Bool → Nat → Nat → Nat × Nat
  | 0, _, m, d => (m, d)
  | fuel + 1, leap, m, d =>
    if d < daysInMonth leap m ∨ 12 ≤ m then (m, d)
    else monthFromF fuel leap (m + 1) (d - daysInMonth leap m)

/-- Month (1..12) and 0-based day-of-month of a day-of-year. -/
def monthFrom (leap : Bool) (doy : Nat) : Nat × Nat :=
  monthFromF 11 leap 1 doy

/-- Civil date (year, month, 1-based day) of a day count since the epoch. -/
def civilFromDays (days : Nat) : Nat × Nat × Nat :=
  let p := yearFrom days
  let q := monthFrom (isLeap p.1) p.2
  (p.1, q.1, q.2 + 1)

/-- `datetime.fromtimestamp(t)` as (year, month, day, hour, minute,
second); `none` models the exception raised when the result falls outside
`datetime`'s year range. -/
def fromtimestamp (t : Nat) : Option (Nat × Nat × Nat × Nat × Nat × Nat) :=
  let c := civilFromDays (t / 86400)
  if c.1 ≤ 9999 then
    some (c.1, c.2.1, c.2.2, t % 86400 / 3600, t % 86400 % 3600 / 60, t % 60)
  else none

/-- The decimal digit character for `n < 10`. -/
def digitChar (n : Nat) : Char :=
  Char.ofNat (48 + n)

/-- Two-digit zero-padded decimal. -/
def pad2L (n : Nat) : List Char :=
  [digitChar (n / 10 % 10), digitChar (n % 10)]

/-- Four-digit zero-padded decimal. -/
def pad4L (n : Nat) : List Char :=
  [digitChar (n / 1000 % 10), digitChar (n / 100 % 10), digitChar (n / 10 % 10),
   digitChar (n % 10)]

/-- `datetime.isoformat()` of a whole-second datetime:
`YYYY-MM-DDTHH:MM:SS`. -/
def isoformatDT (dt : Nat × Nat × Nat × Nat × Nat × Nat) : String :=
  ⟨pad4L dt.1 ++ ('-' :: (pad2L dt.2.1 ++ ('-' :: (pad2L dt.2.2.1 ++
    ('T' :: (pad2L dt.2.2.2.1 ++ (':' :: (pad2L dt.2.2.2.2.1 ++
      (':' :: pad2L dt.2.2.2.2.2)))))))))⟩

/-! ### An ISO-8601 date-time validity checker -/

/-- Read exactly two decimal digits. -/
def read2 : List Char → Option (Nat × List Char)
  | a :: b :: rest =>
    match digitVal a, digitVal b with
    | some x, some y => some (x * 10 + y, rest)
    | _, _ => none
  | _ => none

/-- Read exactly four decimal digits. -/
def read4 : List Char → Option (Nat × List Char)
  | a :: b :: c :: d :: rest =>
    match digitVal a, digitVal b, digitVal c, digitVal d with
    | some w, some x, some y, some z => some (w * 1000 + x * 100 + y * 10 + z, rest)
    | _, _, _, _ => none
  | _ => none

/-- Expect one literal character. -/
def expectChar (c : Char) : List Char → Option (List Char)
  | x :: rest => if x = c then some rest else none
  | [] => none

/-- Parse a `YYYY-MM-DDTHH:MM:SS` string into its six fields. -/
def parseIso (s : String) : Option (Nat × Nat × Nat × Nat × Nat × Nat) :=
  match read4 s.data with
  | none => none
  | some (y, l1) =>
  match expectChar '-' l1 with
  | none => none
  | some l2 =>
  match read2 l2 with
  | none => none
  | some (mo, l3) =>
  match expectChar '-' l3 with
  | none => none
  | some l4 =>
  match read2 l4 with
  | none => none
  | some (da, l5) =>
  match expectChar 'T' l5 with
  | none => none
  | some l6 =>
  match read2 l6 with
  | none => none
  | some (hh, l7) =>
  match expectChar ':' l7 with
  | none => none
  | some l8 =>
  match read2 l8 with
  | none => none
  | some (mi, l9) =>
  match expectChar ':' l9 with
  | none => none
  | some l10 =>
  match read2 l10 with
  | none => none
  | some (ss, l11) =>
  match l11 with
  | [] => some (y, mo, da, hh, mi, ss)
  | _ => none

/-- The string is a well-formed ISO-8601 date-time: it parses, and every
field is in calendar range (month 1..12, day within the month, time of
day in range). -/
def isValidIso (s : String) : Bool :=
  match parseIso s with
  | some (y, mo, da, hh, mi, ss) =>
    decide (1 ≤ mo) && decide (mo ≤ 12) &&
    decide (1 ≤ da) && decide (da ≤ daysInMonth (isLeap y) mo) &&
    decide (hh < 24) && decide (mi < 60) && decide (ss < 60)
  | none => false

/-- The record `file_to_message` builds and the publisher serializes. -/
structure FileRecord where
  path : String
  name : String
  size_bytes : Nat
  modified_ts : String
deriving DecidableEq

/-- `file_to_message(path)`: fails (raises) when `stat` fails or when the
timestamp conversion fails; otherwise returns the fully populated
four-field record. -/
def fileToMessage (cwd : List String) (p : PyPath) (statRes : Option FileStat) :
    Option FileRecord :=
  match statRes with
  | none => none
  | some st =>
    match fromtimestamp st.st_mtime with
    | none => none
    | some dt =>
      some { path := renderAbs (resolvePath cwd p)
             name := p.pyName
             size_bytes := st.st_size
             modified_ts := isoformatDT dt }

/-! ## The wire format — `json.dumps(payload).encode("utf-8")` and a parser

`publish_json` serializes the record with `json.dumps` under its default
options: `ensure_ascii=True`, item separator `", "`, key separator `": "`,
keys in insertion order (`path`, `name`, `size_bytes`, `modified_ts`), then
encodes the text as UTF-8. UTF-8 encoding of text is injective and
lossless, so the embedding works on the character sequence. `parseRecord`
is the inverse a consumer applies to the received bytes. -/

/-- Lowercase hexadecimal digit (as `%04x` prints). -/
def hexChar (n : Nat) : Char :=
  if n < 10 then digitChar n else Char.ofNat (87 + n)

/-- Hexadecimal digit value (either case accepted, as JSON allows). -/
def hexVal (c : Char) : Option Nat :=
  if 48 ≤ c.toNat ∧ c.toNat ≤ 57 then some (c.toNat - 48)
  else if 97 ≤ c.toNat ∧ c.toNat ≤ 102 then some (c.toNat - 87)
  else if 65 ≤ c.toNat ∧ c.toNat ≤ 70 then some (c.toNat - 55)
  else none

/-- `json.dumps` escaping of one character with `ensure_ascii=True`: the
two mandatory escapes, the five short control escapes, `\uXXXX` for the
remaining control characters and all non-ASCII BMP characters, and a
UTF-16 surrogate pair for astral characters. -/
def escChar (c : Char) : List Char :=
  if c = '"' then ['\\', '"']
  else if c = '\\' then ['\\', '\\']
  else if c = '\n' then ['\\', 'n']
  else if c = '\t' then ['\\', 't']
  else if c = '\r' then ['\\', 'r']
  else if c.toNat = 8 then ['\\', 'b']
  else if c.toNat = 12 then ['\\', 'f']
  else if c.toNat < 32 then
    ['\\', 'u', '0', '0', hexChar (c.toNat / 16), hexChar (c.toNat % 16)]
  else if c.toNat < 127 then [c]
  else if c.toNat < 65536 then
    ['\\', 'u', hexChar (c.toNat / 4096), hexChar (c.toNat / 256 % 16),
     hexChar (c.toNat / 16 % 16), hexChar (c.toNat % 16)]
  else
    ['\\', 'u', hexChar ((55296 + (c.toNat - 65536) / 1024) / 4096),
     hexChar ((55296 + (c.toNat - 65536) / 1024) / 256 % 16),
     hexChar ((55296 + (c.toNat - 65536) / 1024) / 16 % 16),
     hexChar ((55296 + (c.toNat - 65536) / 1024) % 16),
     '\\', 'u', hexChar ((56320 + (c.toNat - 65536) % 1024) / 4096),
     hexChar ((56320 + (c.toNat - 65536) % 1024) / 256 % 16),
     hexChar ((56320 + (c.toNat - 65536) % 1024) / 16 % 16),
     hexChar ((56320 + (c.toNat - 65536) % 1024) % 16)]

/-- Escape a whole string. -/
def escapeL : List Char → List Char
  | [] => []
  | c :: cs => escChar c ++ escapeL cs

/-- Read four hexadecimal digits. -/
def readHex4 : List Char → Option (Nat × List Char)
  | a :: b :: c :: d :: rest =>
    match hexVal a, hexVal b, hexVal c, hexVal d with
    | some w, some x, some y, some z => some (w * 4096 + x * 256 + y * 16 + z, rest)
    | _, _, _, _ => none
  | _ => none

/-- Read a JSON string body up to its closing quote, decoding escapes
(including surrogate pairs); the fuel bounds the number of decoded
characters. -/
def readStrBodyF : Nat → List Char → Option (List Char × List Char)
  | 0, _ => none
  | _ + 1, [] => none
  | fuel + 1, c :: rest =>
    if c = '"' then some ([], rest)
    else if c = '\\' then
      match rest with
      | [] => none
      | e :: rest2 =>
        if e = '"' then (readStrBodyF fuel rest2).map (fun p => ('"' :: p.1, p.2))
        else if e = '\\' then (readStrBodyF fuel rest2).map (fun p => ('\\' :: p.1, p.2))
        else if e = 'n' then (readStrBodyF fuel rest2).map (fun p => ('\n' :: p.1, p.2))
        else if e = 't' then (readStrBodyF fuel rest2).map (fun p => ('\t' :: p.1, p.2))
        else if e = 'r' then (readStrBodyF fuel rest2).map (fun p => ('\r' :: p.1, p.2))
        else if e = 'b' then
          (readStrBodyF fuel rest2).map (fun p => (Char.ofNat 8 :: p.1, p.2))
        else if e = 'f' then
          (readStrBodyF fuel rest2).map (fun p => (Char.ofNat 12 :: p.1, p.2))
        else if e = '/' then (readStrBodyF fuel rest2).map (fun p => ('/' :: p.1, p.2))
        else if e = 'u' then
          match readHex4 rest2 with
          | none => none
          | some (v, rest3) =>
            if 55296 ≤ v ∧ v ≤ 56319 then
              match rest3 with
              | '\\' :: 'u' :: rest4 =>
                match readHex4 rest4 with
                | none => none
                | some (lo, rest5) =>
                  if 56320 ≤ lo ∧ lo ≤ 57343 then
                    (readStrBodyF fuel rest5).map (fun p =>
                      (Char.ofNat (65536 + (v - 55296) * 1024 + (lo - 56320)) :: p.1, p.2))
                  else none
              | _ => none
            else if 56320 ≤ v ∧ v ≤ 57343 then none
            else (readStrBodyF fuel rest3).map (fun p => (Char.ofNat v :: p.1, p.2))
        else none
    else (readStrBodyF fuel rest).map (fun p => (c :: p.1, p.2))

/-- Decimal digits of a number, most significant first; the fuel dominates
the number. -/
def natDigsF : Nat → Nat → List Char
  | 0, _ => []
  | fuel + 1, n =>
    if n < 10 then [digitChar n] else natDigsF fuel (n / 10) ++ [digitChar (n % 10)]

/-- Decimal digits of a number, as `json.dumps` prints an `int`. -/
def natDigs (n : Nat) : List Char :=
  natDigsF (n + 1) n

/-- Split a leading run of decimal digits off a character list. -/
def takeDigits : List Char → List Char × List Char
  | [] => ([], [])
  | c :: rest =>
    if c.isDigit then
      ((c :: (takeDigits rest).1), (takeDigits rest).2)
    else ([], c :: rest)

/-- Numeric value of a digit run. -/
def digitsToNat (l : List Char) : Nat :=
  l.foldl (fun acc c => acc * 10 + (c.toNat - 48)) 0

/-- Read a decimal number (at least one digit). -/
def readNat (l : List Char) : Option (Nat × List Char) :=
  if (takeDigits l).1 = [] then none
  else some (digitsToNat (takeDigits l).1, (takeDigits l).2)

/-- Expect a literal character sequence. -/
def expectLit : List Char → List Char → Option (List Char)
  | [], l => some l
  | _ :: _, [] => none
  | c :: cs, x :: xs => if x = c then expectLit cs xs else none

/-- The opening of the object and the `path` key. -/
def litPath : List Char := '\x7b' :: '"' :: ("path".data ++ ['"', ':', ' ', '"'])

/-- The separator and the `name` key. -/
def litName : List Char := ',' :: ' ' :: '"' :: ("name".data ++ ['"', ':', ' ', '"'])

/-- The separator and the `size_bytes` key (a bare number follows). -/
def litSize : List Char := ',' :: ' ' :: '"' :: ("size_bytes".data ++ ['"', ':', ' '])

/-- The separator and the `modified_ts` key. -/
def litTs : List Char := ',' :: ' ' :: '"' :: ("modified_ts".data ++ ['"', ':', ' ', '"'])

/-- The characters of `json.dumps` applied to the four-field record. -/
def dumpsRecordL (r : FileRecord) : List Char :=
  litPath ++ (escapeL r.path.data ++ ('"' :: (litName ++ (escapeL r.name.data ++
    ('"' :: (litSize ++ (natDigs r.size_bytes ++ (litTs ++ (escapeL r.modified_ts.data ++
      ('"' :: ['\x7d']))))))))))

/-- The wire text of a record (its UTF-8 bytes decode back to exactly this
string). -/
def dumpsRecord (r : FileRecord) : String :=
  ⟨dumpsRecordL r⟩

/-- Parse the wire text back into the four fields. -/
def parseRecord (s : String) : Option FileRecord :=
  match expectLit litPath s.data with
  | none => none
  | some l0 =>
  match readStrBodyF (l0.length + 1) l0 with
  | none => none
  | some (path, l1) =>
  match expectLit litName l1 with
  | none => none
  | some l2 =>
  match readStrBodyF (l2.length + 1) l2 with
  | none => none
  | some (nm, l3) =>
  match expectLit litSize l3 with
  | none => none
  | some l4 =>
  match readNat l4 with
  | none => none
  | some (sz, l5) =>
  match expectLit litTs l5 with
  | none => none
  | some l6 =>
  match readStrBodyF (l6.length + 1) l6 with
  | none => none
  | some (ts, l7) =>
  match l7 with
  | ['\x7d'] => some ⟨⟨path⟩, ⟨nm⟩, sz, ⟨ts⟩⟩
  | _ => none

/-! # Theorems -/

/-- Helper: `runItems` splits over list append — the loop always reaches the
items after any given point. -/
theorem runItems_append (dryRun : Bool) (xs ys : List ItemEnv) (c : Counts) :
    runItems dryRun (xs ++ ys) c = runItems dryRun ys (runItems dryRun xs c) := by
  simp [runItems, List.foldl_append]

/-- Helper: the loop counts exactly the successes and the failures. -/
theorem runItems_counts (dryRun : Bool) (items : List ItemEnv) (c : Counts) :
    runItems dryRun items c =
      ⟨c.files + (items.filter (itemOk dryRun)).length,
       c.errors + (items.filter (fun it => ¬ itemOk dryRun it)).length⟩ := by
  induction items generalizing c with
  | nil => simp [runItems]
  | cons it rest ih =>
    have hstep : runItems dryRun (it :: rest) c = runItems dryRun rest (stepItem dryRun c it) := by
      simp [runItems]
    rw [hstep, ih]
    cases it with
    | extractFail => simp [stepItem, itemOk, Nat.add_assoc, Nat.add_comm 1]
    | extractOk pub =>
      by_cases hd : dryRun
      · simp [stepItem, itemOk, hd, Nat.add_assoc, Nat.add_comm 1]
      · cases pub with
        | ok u => simp [stepItem, itemOk, hd, Nat.add_assoc, Nat.add_comm 1]
        | error err => simp [stepItem, itemOk, hd, Nat.add_assoc, Nat.add_comm 1]

/-- Helper: the loop accounts for every item — each iteration bumps exactly
one of the two counters. -/
theorem runItems_total (dryRun : Bool) (items : List ItemEnv) (c : Counts) :
    (runItems dryRun items c).files + (runItems dryRun items c).errors
      = c.files + c.errors + items.length := by
  induction items generalizing c with
  | nil => simp [runItems]
  | cons it rest ih =>
    have hstep : runItems dryRun (it :: rest) c = runItems dryRun rest (stepItem dryRun c it) := by
      simp [runItems]
    rw [hstep, ih]
    cases it with
    | extractFail => simp [stepItem]; omega
    | extractOk pub =>
      by_cases hd : dryRun
      · simp [stepItem, hd]; omega
      · cases pub with
        | ok u => simp [stepItem, hd]; omega
        | error err => simp [stepItem, hd]; omega

/-- C6: the exit status of `main` is `0` exactly when the run completes
normally with no per-file errors; it is `1` when the root is invalid, when
the broker connection fails at startup, when any per-file error occurred,
or on a fatal scan error; user interruption exits with `130`, distinct from
the generic failure code `1`. -/
theorem main_exit_status (e : RunEnv) :
    (main e = 0 ↔
      (e.rootExists = true ∧ e.rootIsDir = true ∧ (e.dryRun = true ∨ e.connectOk = true) ∧
        e.ending = .normal ∧ (runItems e.dryRun e.items ⟨0, 0⟩).errors = 0)) ∧
    ((e.rootExists = false ∨ e.rootIsDir = false) → main e = 1) ∧
    (e.rootExists = true → e.rootIsDir = true → e.dryRun = false → e.connectOk = false →
      main e = 1) ∧
    (e.rootExists = true → e.rootIsDir = true → (e.dryRun = true ∨ e.connectOk = true) →
      e.ending = .fatal → main e = 1) ∧
    (e.rootExists = true → e.rootIsDir = true → (e.dryRun = true ∨ e.connectOk = true) →
      e.ending = .normal → (runItems e.dryRun e.items ⟨0, 0⟩).errors ≠ 0 → main e = 1) ∧
    (e.rootExists = true → e.rootIsDir = true → (e.dryRun = true ∨ e.connectOk = true) →
      e.ending = .interrupt → main e = 130 ∧ main e ≠ 1) := by
  obtain ⟨re, rd, dr, co, items, ending⟩ := e
  cases re <;> cases rd <;> cases dr <;> cases co <;> cases ending <;>
    simp only [main, Bool.not_eq_true] <;>
    first
    | (constructor
       · constructor
         · intro h; split at h <;> simp_all
         · rintro ⟨-, -, -, -, h5⟩; simp [h5]
       · refine ⟨by simp, by simp, by simp, fun _ _ _ _ h => ?_, by simp⟩
         split at * <;> simp_all)
    | simp_all

/-- C6 witness: a clean run exits `0`; an interrupted run exits `130`. -/
theorem main_exit_status_witness :
    main ⟨true, true, false, true, [ItemEnv.extractOk (.ok ())], .normal⟩ = 0 ∧
    main ⟨true, true, false, true, [ItemEnv.extractOk (.ok ())], .interrupt⟩ = 130 := by
  constructor
  · exact (main_exit_status ⟨true, true, false, true, [ItemEnv.extractOk (.ok ())], .normal⟩).1.mpr
      ⟨rfl, rfl, Or.inr rfl, rfl, by decide⟩
  · exact ((main_exit_status
      ⟨true, true, false, true, [ItemEnv.extractOk (.ok ())], .interrupt⟩).2.2.2.2.2
      rfl rfl (Or.inr rfl) rfl).1

/-- C7: a per-file failure (extraction or publish) is caught, increments the
error counter by exactly one, and the loop continues with all remaining
items; counters account for every item; in the three-file scenario with one
vanished file the run reports processed = 2, errors = 1 and exits non-zero. -/
theorem per_item_error_isolation (dryRun : Bool) (c : Counts) (items : List ItemEnv) :
    (stepItem dryRun c .extractFail = { c with errors := c.errors + 1 }) ∧
    (∀ err : AmqpErr, dryRun = false →
      stepItem dryRun c (.extractOk (.error err)) = { c with errors := c.errors + 1 }) ∧
    ((runItems dryRun items c).files + (runItems dryRun items c).errors
      = c.files + c.errors + items.length) ∧
    (∀ xs ys : List ItemEnv,
      runItems dryRun (xs ++ ys) c = runItems dryRun ys (runItems dryRun xs c)) ∧
    (runItems false
        [ItemEnv.extractOk (.ok ()), ItemEnv.extractFail, ItemEnv.extractOk (.ok ())]
        ⟨0, 0⟩ = ⟨2, 1⟩) ∧
    (main ⟨true, true, false, true,
        [ItemEnv.extractOk (.ok ()), ItemEnv.extractFail, ItemEnv.extractOk (.ok ())],
        .normal⟩ = 1) := by
  refine ⟨rfl, ?_, runItems_total dryRun items c, fun xs ys => runItems_append dryRun xs ys c,
    by decide, by decide⟩
  intro err hd
  simp [stepItem, hd]

/-- C7 witness: instantiated at a concrete loop state and item list. -/
theorem per_item_error_isolation_witness :
    stepItem false ⟨5, 2⟩ (.extractOk (.error (AmqpErr.chanErr 0))) = ⟨5, 3⟩ :=
  (per_item_error_isolation false ⟨5, 2⟩ []).2.1 (AmqpErr.chanErr 0) rfl

/-- C8: `from_env` called with the explicit argument `port = 0` and no
environment variables set yields port `5672` — the explicitly provided value
is overridden because Python `or` treats `0` as falsy, contradicting the
documented priority `explicit arguments > environment variables > defaults`. -/
theorem from_env_port_zero_overridden :
    RabbitConfig.from_env emptyEnv none (some 0) none none none none =
      some { host := "localhost", port := 5672, username := "guest",
             password := "guest", virtual_host := "/", queue := "file_events" } ∧
    (5672 : Int) ≠ 0 := by
  exact ⟨by decide, by decide⟩

/-- Helper: resolution one level into a directory. -/
theorem isFileIn_dir (n : String) (ch : List FsNode) (q : List String) :
    isFileIn (.dir n ch) q = true ↔
      ∃ x xs c, q = x :: xs ∧ findChild ch x = some c ∧ isFileIn c xs = true := by
  cases q with
  | nil => simp [isFileIn, resolveIn]
  | cons x xs =>
    simp only [isFileIn, resolveIn]
    cases hfc : findChild ch x with
    | none =>
      simp only [reduceCtorEq, false_iff, not_exists]
      intro x' xs' c' ⟨h1, h2, _⟩
      cases h1
      rw [hfc] at h2
      cases h2
    | some c =>
      constructor
      · intro h; exact ⟨x, xs, c, rfl, hfc, h⟩
      · rintro ⟨x', xs', c', heq, hfind, hfile⟩
        cases heq
        rw [hfc] at hfind
        cases hfind
        exact hfile

/-- Helper: a successful child lookup returns a child bearing the looked-up
name. -/
theorem findChild_some {ch : List FsNode} {x : String} {c : FsNode}
    (h : findChild ch x = some c) : c ∈ ch ∧ c.name = x := by
  rw [findChild] at h
  refine ⟨List.mem_of_find?_eq_some h, ?_⟩
  have hp := List.find?_some h
  exact eq_of_beq (by simpa using hp)

mutual

/-- Helper: what the walk yields from one entry — exactly the paths that
start with the entry's name and resolve to a regular file inside it. -/
theorem mem_filesUnder (t : FsNode) (p : List String) (hwf : wfNames t = true) :
    p ∈ filesUnder t ↔ ∃ q, p = t.name :: q ∧ isFileIn t q = true := by
  cases t with
  | file n =>
    simp only [filesUnder, FsNode.name, List.mem_singleton]
    constructor
    · rintro rfl; exact ⟨[], rfl, rfl⟩
    · rintro ⟨q, rfl, hq⟩
      cases q with
      | nil => rfl
      | cons y ys => simp [isFileIn, resolveIn] at hq
  | brokenLink n =>
    simp only [filesUnder, List.not_mem_nil, false_iff, not_exists]
    rintro q ⟨rfl, hq⟩
    cases q with
    | nil => simp [isFileIn, resolveIn] at hq
    | cons y ys => simp [isFileIn, resolveIn] at hq
  | dir n ch =>
    rw [wfNames, Bool.and_eq_true] at hwf
    simp only [filesUnder, List.mem_map, FsNode.name]
    constructor
    · rintro ⟨q, hq, rfl⟩
      rw [mem_filesUnderL ch q hwf.1 hwf.2] at hq
      exact ⟨q, rfl, (isFileIn_dir n ch q).mpr hq⟩
    · rintro ⟨q, rfl, hq⟩
      exact ⟨q, (mem_filesUnderL ch q hwf.1 hwf.2).mpr ((isFileIn_dir n ch q).mp hq), rfl⟩

/-- Helper: what the walk yields from a directory listing. -/
theorem mem_filesUnderL (ch : List FsNode) (p : List String)
    (h1 : nodupByName ch = true) (h2 : wfNamesL ch = true) :
    p ∈ filesUnderL ch ↔
      ∃ x xs c, p = x :: xs ∧ findChild ch x = some c ∧ isFileIn c xs = true := by
  cases ch with
  | nil =>
    simp only [filesUnderL, List.not_mem_nil, false_iff, not_exists]
    intro x xs c ⟨_, hfind, _⟩
    cases hfind
  | cons c cs =>
    rw [nodupByName, Bool.and_eq_true] at h1
    rw [wfNamesL, Bool.and_eq_true] at h2
    simp only [filesUnderL, List.mem_append]
    constructor
    · intro h
      cases h with
      | inl h =>
        obtain ⟨q, rfl, hq⟩ := (mem_filesUnder c p h2.1).mp h
        refine ⟨c.name, q, c, rfl, ?_, hq⟩
        simp [findChild]
      | inr h =>
        obtain ⟨x, xs, c', rfl, hfind, hfile⟩ := (mem_filesUnderL cs p h1.2 h2.2).mp h
        refine ⟨x, xs, c', rfl, ?_, hfile⟩
        obtain ⟨hc', hname⟩ := findChild_some hfind
        have hne : c'.name ≠ c.name := bne_iff_ne.mp ((List.all_eq_true.mp h1.1) c' hc')
        have hbe : (c.name == x) = false := by
          rw [beq_eq_false_iff_ne]
          intro hcn
          exact hne (hname.trans hcn.symm)
        rw [findChild, List.find?_cons, hbe]
        exact hfind
    · rintro ⟨x, xs, c', rfl, hfind, hfile⟩
      rw [findChild] at hfind
      cases hbe : (c.name == x) with
      | true =>
        rw [List.find?_cons, hbe] at hfind
        cases hfind
        left
        have hx : c.name = x := eq_of_beq hbe
        exact (mem_filesUnder c (x :: xs) h2.1).mpr ⟨xs, by rw [hx], hfile⟩
      | false =>
        rw [List.find?_cons, hbe] at hfind
        right
        exact (mem_filesUnderL cs (x :: xs) h1.2 h2.2).mpr ⟨x, xs, c', rfl, hfind, hfile⟩

end

mutual

/-- Helper: no duplicates among the paths yielded from one entry. -/
theorem nodup_filesUnder (t : FsNode) (hwf : wfNames t = true) : (filesUnder t).Nodup := by
  cases t with
  | file n => simp [filesUnder]
  | brokenLink n => simp [filesUnder]
  | dir n ch =>
    rw [wfNames, Bool.and_eq_true] at hwf
    exact (nodup_filesUnderL ch hwf.1 hwf.2).map
      (fun a b hab => by injection hab)

/-- Helper: no duplicates among the paths yielded from a listing with
distinct sibling names. -/
theorem nodup_filesUnderL (ch : List FsNode)
    (h1 : nodupByName ch = true) (h2 : wfNamesL ch = true) :
    (filesUnderL ch).Nodup := by
  cases ch with
  | nil => simp [filesUnderL]
  | cons c cs =>
    rw [nodupByName, Bool.and_eq_true] at h1
    rw [wfNamesL, Bool.and_eq_true] at h2
    rw [filesUnderL]
    refine (nodup_filesUnder c h2.1).append (nodup_filesUnderL cs h1.2 h2.2) ?_
    intro p hpc hpcs
    obtain ⟨q, rfl, _⟩ := (mem_filesUnder c p h2.1).mp hpc
    obtain ⟨x, xs, c', heq, hfind, _⟩ := (mem_filesUnderL cs _ h1.2 h2.2).mp hpcs
    have hx : x = c.name := by injection heq with hh _; exact hh.symm
    obtain ⟨hc', hname⟩ := findChild_some hfind
    have hne : c'.name ≠ c.name := bne_iff_ne.mp ((List.all_eq_true.mp h1.1) c' hc')
    exact hne (hname.trans hx)

end

/-- C3: on a well-formed directory root, `iter_files` succeeds and yields a
sequence containing every reachable regular file exactly once (no
duplicates, and membership is exactly "resolves to a regular file"), no
directory entries, and no broken symlinks; on an empty directory it yields
the empty sequence. -/
theorem iter_files_spec (rname : String) (ch : List FsNode)
    (hwf : wfNames (.dir rname ch) = true) :
    iterFilesBody (.dir rname ch) = .ok (filesUnderL ch) ∧
    (filesUnderL ch).Nodup ∧
    (∀ p, p ∈ filesUnderL ch ↔ isFileIn (.dir rname ch) p = true) ∧
    (∀ p ∈ filesUnderL ch,
      isDirIn (.dir rname ch) p = false ∧ isBrokenIn (.dir rname ch) p = false) ∧
    (ch = [] → filesUnderL ch = []) := by
  rw [wfNames, Bool.and_eq_true] at hwf
  have hmem : ∀ p, p ∈ filesUnderL ch ↔ isFileIn (.dir rname ch) p = true := by
    intro p
    rw [mem_filesUnderL ch p hwf.1 hwf.2, isFileIn_dir]
  refine ⟨rfl, nodup_filesUnderL ch hwf.1 hwf.2, hmem, ?_, fun h => by rw [h]; rfl⟩
  intro p hp
  have hfile := (hmem p).mp hp
  rw [isFileIn] at hfile
  cases hres : resolveIn (.dir rname ch) p with
  | none => rw [hres] at hfile; cases hfile
  | some t =>
    rw [hres] at hfile
    cases t with
    | file m => exact ⟨by rw [isDirIn, hres], by rw [isBrokenIn, hres]⟩
    | brokenLink m => cases hfile
    | dir m mch => cases hfile

/-- C3 witness: a concrete tree with a file, a subdirectory holding a file,
and a broken symlink. -/
theorem iter_files_spec_witness :
    (filesUnderL [FsNode.file "a.txt", FsNode.dir "sub" [FsNode.file "b.txt"],
      FsNode.brokenLink "bad"]).Nodup ∧
    ["sub", "b.txt"] ∈ filesUnderL [FsNode.file "a.txt",
      FsNode.dir "sub" [FsNode.file "b.txt"], FsNode.brokenLink "bad"] := by
  have h := iter_files_spec "root"
    [FsNode.file "a.txt", FsNode.dir "sub" [FsNode.file "b.txt"], FsNode.brokenLink "bad"]
    (by rfl)
  exact ⟨h.2.1, (h.2.2.1 ["sub", "b.txt"]).mpr (by rfl)⟩

/-- C5 counterexample: calling the generator function `iter_files` on a
regular file does not fail at call time — Python returns a generator object
without executing the body, so the call itself yields `.ok`, not the
directory-required error the claim asserts. -/
theorem iter_files_call_returns_generator :
    iterFilesCall (FsNode.file "f.txt") = .ok ⟨.error .notADirectory⟩ := rfl

/-- C5 amended: for every root that is not a directory, calling `iter_files`
returns a generator without raising, and the first iteration of that
generator raises the directory-required error before yielding any element. -/
theorem iter_files_nondir_first_force_errors (root : FsNode)
    (h : isDirNode root = false) :
    iterFilesCall root = .ok ⟨.error .notADirectory⟩ := by
  cases root with
  | file n => rfl
  | brokenLink n => rfl
  | dir n ch => rw [isDirNode] at h; cases h

/-- C5 amended witness: instantiated at a broken-symlink root. -/
theorem iter_files_nondir_first_force_errors_witness :
    iterFilesCall (FsNode.brokenLink "x") = .ok ⟨.error .notADirectory⟩ :=
  iter_files_nondir_first_force_errors (FsNode.brokenLink "x") rfl

/-! ### Trace bookkeeping lemmas -/

/-- Helper: declarations accumulate over appended traces. -/
theorem addDecls_append (d : List Nat) (t1 t2 : List Ev) :
    addDecls d (t1 ++ t2) = addDecls (addDecls d t1) t2 := by
  simp [addDecls, List.foldl_append]

/-- Helper: the first component of the trace scan is the declaration set. -/
theorem okScan_fst (tr : List Ev) (d : List Nat) (b : Bool) :
    (tr.foldl okStep (d, b)).1 = addDecls d tr := by
  induction tr generalizing d b with
  | nil => rfl
  | cons e tr ih =>
    rw [List.foldl_cons]
    exact ih _ _

/-- Helper: the flag of the trace scan factors out of its initial value. -/
theorem okScan_snd (tr : List Ev) (d : List Nat) (b : Bool) :
    (tr.foldl okStep (d, b)).2 = (b && (tr.foldl okStep (d, true)).2) := by
  induction tr generalizing d b with
  | nil => simp
  | cons e tr ih =>
    rw [List.foldl_cons, List.foldl_cons]
    cases e with
    | openConn i =>
      show (tr.foldl okStep (d, b && true)).2 = (b && (tr.foldl okStep (d, true && true)).2)
      rw [ih, ih d (true && true)]
      simp
    | openChan i =>
      show (tr.foldl okStep (d, b && true)).2 = (b && (tr.foldl okStep (d, true && true)).2)
      rw [ih, ih d (true && true)]
      simp
    | publish i =>
      show (tr.foldl okStep (d, b && d.contains i)).2
        = (b && (tr.foldl okStep (d, true && d.contains i)).2)
      rw [ih, ih d (true && d.contains i)]
      simp [Bool.and_assoc]
    | declareQueue i bd =>
      cases bd with
      | true =>
        show (tr.foldl okStep (i :: d, b && true)).2
          = (b && (tr.foldl okStep (i :: d, true && true)).2)
        rw [ih, ih (i :: d) (true && true)]
        simp
      | false =>
        show (tr.foldl okStep (d, b && true)).2 = (b && (tr.foldl okStep (d, true && true)).2)
        rw [ih, ih d (true && true)]
        simp

/-- Helper: the trace property composes over appended traces. -/
theorem okFrom_append (d : List Nat) (t1 t2 : List Ev) :
    okFrom d (t1 ++ t2) = (okFrom d t1 && okFrom (addDecls d t1) t2) := by
  have h1 : t1.foldl okStep (d, true) = (addDecls d t1, okFrom d t1) :=
    Prod.ext (okScan_fst t1 d true) rfl
  rw [okFrom, List.foldl_append, h1, okScan_snd]
  rfl

/-! ### Invariant preservation through the client's operations -/

/-- Helper: observing degradation preserves the client invariant (closing
things only makes the invariant easier). -/
theorem degrade_inv (a : AttemptEnv) (d : List Nat) (st : RState) (h : StInv d st) :
    StInv d (degrade a st) := by
  obtain ⟨conn, chan, nid⟩ := st
  obtain ⟨cd, chd, c1, c2, c3⟩ := a
  cases cd <;> cases chd <;>
    rcases conn with _ | ⟨i, b⟩ <;> (try cases b) <;>
    rcases chan with _ | cb <;> (try cases cb) <;>
    simp_all [degrade, StInv]

/-- Helper: `connect()` keeps the invariant and, on success, leaves an open
connection and channel with the queue declared durable on it. Its
precondition is that the channel is not open (it is called only when the
connection is absent or closed, and a closed connection closes its
channel). -/
theorem connect_spec (f : ConnectFault) (st : RState) (d : List Nat)
    (hchan : st.chan ≠ some false) :
    okFrom d (connectStep f st).2.2 = true ∧
    StInv (addDecls d (connectStep f st).2.2) (connectStep f st).2.1 ∧
    ((connectStep f st).1 = .ok () →
      (connectStep f st).2.1.conn = some (st.nextId, false) ∧
      (connectStep f st).2.1.chan = some false ∧
      (addDecls d (connectStep f st).2.2).contains st.nextId = true) := by
  obtain ⟨conn, chan, nid⟩ := st
  cases f with
  | failConn e =>
    refine ⟨rfl, ⟨?_, ?_, ?_⟩, by intro h; cases h⟩
    · intro i h1 h2; exact absurd h2 hchan
    · intro i h1; exact hchan
    · intro h1; exact hchan
  | failChan e =>
    refine ⟨rfl, ⟨?_, ?_, ?_⟩, by intro h; cases h⟩
    · intro i h1 h2; exact absurd h2 hchan
    · intro i h1; simp [connectStep] at h1
    · intro h1; simp [connectStep] at h1
  | failDeclare e =>
    refine ⟨rfl, ⟨?_, ?_, ?_⟩, by intro h; cases h⟩
    · intro i h1 h2; simp [connectStep] at h2
    · intro i h1; simp [connectStep] at h1
    · intro h1; simp [connectStep] at h1
  | ok =>
    refine ⟨rfl, ⟨?_, ?_, ?_⟩, fun _ => ⟨rfl, rfl, ?_⟩⟩
    · intro i h1 h2
      have h1x : (some (nid, false) : Option (Nat × Bool)) = some (i, false) := h1
      have hi : nid = i := by
        simp only [Option.some.injEq, Prod.mk.injEq] at h1x
        exact h1x.1
      rw [← hi]
      show (nid :: d).contains nid = true
      simp
    · intro i h1; simp [connectStep] at h1
    · intro h1; simp [connectStep] at h1
    · show (nid :: d).contains nid = true
      simp

/-- Helper: the channel-reopen path keeps the invariant and, on success,
leaves the channel open with the queue declared durable on the (unchanged)
connection. -/
theorem reopen_spec (f : ReopenFault) (st : RState) (d : List Nat) (i : Nat)
    (hconn : st.conn = some (i, false)) (hchan : st.chan ≠ some false) :
    okFrom d (reopenStep f st).2.2 = true ∧
    StInv (addDecls d (reopenStep f st).2.2) (reopenStep f st).2.1 ∧
    ((reopenStep f st).1 = .ok () →
      (reopenStep f st).2.1.conn = some (i, false) ∧
      (reopenStep f st).2.1.chan = some false ∧
      (addDecls d (reopenStep f st).2.2).contains i = true) := by
  obtain ⟨conn, chan, nid⟩ := st
  have hc : conn = some (i, false) := hconn
  subst hc
  have hid : connId ⟨some (i, false), chan, nid⟩ = i := rfl
  cases f with
  | failChan e =>
    refine ⟨rfl, ⟨?_, ?_, ?_⟩, by intro h; cases h⟩
    · intro j h1 h2; exact absurd h2 hchan
    · intro j h1; simp [reopenStep] at h1
    · intro h1; simp [reopenStep] at h1
  | failDeclare e =>
    refine ⟨rfl, ⟨?_, ?_, ?_⟩, by intro h; cases h⟩
    · intro j h1 h2; simp [reopenStep] at h2
    · intro j h1; simp [reopenStep] at h1
    · intro h1; simp [reopenStep] at h1
  | ok =>
    refine ⟨rfl, ⟨?_, ?_, ?_⟩, fun _ => ⟨rfl, rfl, ?_⟩⟩
    · intro j h1 h2
      have h1x : (some (i, false) : Option (Nat × Bool)) = some (j, false) := h1
      have hj : i = j := by
        simp only [Option.some.injEq, Prod.mk.injEq] at h1x
        exact h1x.1
      rw [← hj]
      show ((connId ⟨some (i, false), chan, nid⟩) :: d).contains i = true
      rw [hid]
      simp
    · intro j h1; simp [reopenStep] at h1
    · intro h1; simp [reopenStep] at h1
    · show ((connId ⟨some (i, false), chan, nid⟩) :: d).contains i = true
      rw [hid]
      simp

/-- Helper: `_ensure_connection` keeps the invariant and, on success,
guarantees an open connection and channel whose queue is declared. -/
theorem ensure_spec (a : AttemptEnv) (st : RState) (d : List Nat) (hinv : StInv d st) :
    okFrom d (ensureStep a st).2.2 = true ∧
    StInv (addDecls d (ensureStep a st).2.2) (ensureStep a st).2.1 ∧
    ((ensureStep a st).1 = .ok () →
      ∃ j, (ensureStep a st).2.1.conn = some (j, false) ∧
        (ensureStep a st).2.1.chan = some false ∧
        (addDecls d (ensureStep a st).2.2).contains j = true) := by
  obtain ⟨conn, chan, nid⟩ := st
  rcases conn with _ | ⟨i, b⟩
  · have h := connect_spec a.connectRes ⟨none, chan, nid⟩ d (hinv.2.2 rfl)
    exact ⟨h.1, h.2.1, fun hok => ⟨nid, h.2.2 hok⟩⟩
  · cases b with
    | true =>
      have h := connect_spec a.connectRes ⟨some (i, true), chan, nid⟩ d (hinv.2.1 i rfl)
      exact ⟨h.1, h.2.1, fun hok => ⟨nid, h.2.2 hok⟩⟩
    | false =>
      rcases chan with _ | cb
      · have h := reopen_spec a.reopenRes ⟨some (i, false), none, nid⟩ d i rfl (by simp)
        exact ⟨h.1, h.2.1, fun hok => ⟨i, h.2.2 hok⟩⟩
      · cases cb with
        | true =>
          have h := reopen_spec a.reopenRes ⟨some (i, false), some true, nid⟩ d i rfl (by simp)
          exact ⟨h.1, h.2.1, fun hok => ⟨i, h.2.2 hok⟩⟩
        | false =>
          refine ⟨rfl, hinv, fun _ => ⟨i, rfl, rfl, hinv.1 i rfl rfl⟩⟩

/-- Helper: a publish event alone is in order exactly on a declared
connection. -/
theorem okFrom_publish (d : List Nat) (j : Nat) :
    okFrom d [Ev.publish j] = d.contains j := by
  simp [okFrom, okStep]

/-- Helper: one whole retry-loop iteration keeps the invariant and emits an
in-order trace: its publish event, if reached, lands on a connection that
holds a durable declaration. -/
theorem attempt_spec (a : AttemptEnv) (st : RState) (d : List Nat) (hinv : StInv d st) :
    okFrom d (attemptStep a st).2.2 = true ∧
    StInv (addDecls d (attemptStep a st).2.2) (attemptStep a st).2.1 := by
  have hinv0 := degrade_inv a d st hinv
  have hE := ensure_spec a (degrade a st) d hinv0
  rw [attemptStep]
  cases hens : ensureStep a (degrade a st) with
  | mk res rest =>
    obtain ⟨st1, tr⟩ := rest
    rw [hens] at hE
    cases res with
    | error e => exact ⟨hE.1, hE.2.1⟩
    | ok u =>
      obtain ⟨j, hc, hch, hcont⟩ := hE.2.2 rfl
      have hid : connId st1 = j := by rw [connId, hc]
      have htr : okFrom d (tr ++ [Ev.publish (connId st1)]) = true := by
        rw [okFrom_append, hE.1, hid, okFrom_publish, hcont]
        rfl
      have hst : StInv (addDecls d (tr ++ [Ev.publish (connId st1)])) st1 := by
        rw [addDecls_append]
        exact hE.2.1
      cases a.publishRes with
      | some e => exact ⟨htr, hst⟩
      | none => exact ⟨htr, hst⟩

/-- Helper: the whole retry loop keeps the invariant and emits an in-order
trace. -/
theorem publishLoop_inv (env : Nat → AttemptEnv) (fuel : Nat) :
    ∀ idx st d, StInv d st →
      okFrom d (publishLoop env idx st fuel).trace = true ∧
      StInv (addDecls d (publishLoop env idx st fuel).trace)
        (publishLoop env idx st fuel).state := by
  induction fuel with
  | zero => intro idx st d h; exact ⟨rfl, h⟩
  | succ r ih =>
    intro idx st d h
    have ha := attempt_spec (env idx) st d h
    rw [publishLoop]
    cases hA : attemptStep (env idx) st with
    | mk res rest =>
      obtain ⟨st1, tr⟩ := rest
      rw [hA] at ha
      cases res with
      | ok u => exact ⟨ha.1, ha.2⟩
      | error e =>
        by_cases hr : r = 0
        · subst hr
          simp only [if_true]
          exact ⟨ha.1, ha.2⟩
        · simp only [hr, if_false]
          obtain ⟨h1, h2⟩ := ih (idx + 1) st1 (addDecls d tr) ha.2
          refine ⟨?_, ?_⟩
          · rw [okFrom_append, ha.1, h1]
            rfl
          · rw [addDecls_append]
            exact h2

/-- Helper: the per-record fold of a run preserves in-order traces. -/
theorem runClient_fold (pubs : List (Nat → AttemptEnv)) :
    ∀ st tr, okFrom [] tr = true → StInv (addDecls [] tr) st →
      okFrom [] (pubs.foldl runStep (st, tr)).2 = true := by
  induction pubs with
  | nil => intro st tr h _; exact h
  | cons env rest ih =>
    intro st tr h hinv
    rw [List.foldl_cons]
    have hp := publishLoop_inv env ((3 : Int).toNat) 0 st (addDecls [] tr) hinv
    apply ih
    · show okFrom [] (tr ++ (publishJson env 3 st).trace) = true
      have hp1 : okFrom (addDecls [] tr) (publishJson env 3 st).trace = true := hp.1
      rw [okFrom_append, h, hp1]
      rfl
    · show StInv (addDecls [] (tr ++ (publishJson env 3 st).trace))
        (publishJson env 3 st).state
      rw [addDecls_append]
      exact hp.2

/-- C2: on every run — an initial `connect()` followed by any number of
`publish_json` calls, under any schedule of transport failures, dropped
connections and dropped channels — every publish attempt happens on a
connection on which the configured queue was first declared durable
(reconnections and channel reopenings included). -/
theorem queue_declared_before_publish (cf : ConnectFault)
    (pubs : List (Nat → AttemptEnv)) :
    okFrom [] (runClient cf pubs).2 = true := by
  have h0 := connect_spec cf initialState [] (by rw [initialState]; simp)
  rw [runClient]
  exact runClient_fold pubs (connectStep cf initialState).2.1
    (connectStep cf initialState).2.2 h0.1 h0.2.1

/-- Helper: the retry loop never runs more iterations than its fuel. -/
theorem publishLoop_attempts_le (env : Nat → AttemptEnv) (fuel : Nat) :
    ∀ idx st, (publishLoop env idx st fuel).attempts ≤ fuel := by
  induction fuel with
  | zero => intro idx st; exact Nat.le_refl 0
  | succ r ih =>
    intro idx st
    rw [publishLoop]
    cases attemptStep (env idx) st with
    | mk res rest =>
      obtain ⟨st1, tr⟩ := rest
      cases res with
      | ok u => simp
      | error e =>
        by_cases hr : r = 0
        · subst hr; simp
        · simp only [hr, if_false]
          exact Nat.succ_le_succ (ih (idx + 1) st1)

/-- C1: with the default `retry_count = 3`, `publish_json` makes at most 3
attempts; when all three fail it raises the error of the last attempt (the
last underlying cause); when the first two fail and the third succeeds it
returns normally after exactly 3 attempts and the orchestrator counts the
item as processed, not errored. -/
theorem publish_retry_spec (env : Nat → AttemptEnv) (st0 : RState) :
    (publishJson env 3 st0).attempts ≤ 3 ∧
    (∀ e0 e1 e2 st1 st2 st3 tr1 tr2 tr3,
      attemptStep (env 0) st0 = (.error e0, st1, tr1) →
      attemptStep (env 1) st1 = (.error e1, st2, tr2) →
      attemptStep (env 2) st2 = (.error e2, st3, tr3) →
      (publishJson env 3 st0).result = .error e2 ∧
      (publishJson env 3 st0).attempts = 3) ∧
    (∀ e0 e1 st1 st2 st3 tr1 tr2 tr3,
      attemptStep (env 0) st0 = (.error e0, st1, tr1) →
      attemptStep (env 1) st1 = (.error e1, st2, tr2) →
      attemptStep (env 2) st2 = (.ok (), st3, tr3) →
      (publishJson env 3 st0).result = .ok () ∧
      (publishJson env 3 st0).attempts = 3 ∧
      (∀ c : Counts, stepItem false c (.extractOk (publishJson env 3 st0).result)
        = { c with files := c.files + 1 })) := by
  have hdef : publishJson env 3 st0 = publishLoop env 0 st0 3 := rfl
  refine ⟨by rw [hdef]; exact publishLoop_attempts_le env 3 0 st0, ?_, ?_⟩
  · intro e0 e1 e2 st1 st2 st3 tr1 tr2 tr3 h0 h1 h2
    rw [hdef]
    simp [publishLoop, h0, h1, h2]
  · intro e0 e1 st1 st2 st3 tr1 tr2 tr3 h0 h1 h2
    have hres : (publishJson env 3 st0).result = .ok ()
        ∧ (publishJson env 3 st0).attempts = 3 := by
      rw [hdef]
      constructor <;> simp [publishLoop, h0, h1, h2]
    refine ⟨hres.1, hres.2, fun c => ?_⟩
    rw [hres.1]
    rfl

/-- C1 witness: a schedule where the first two publish calls raise a
channel error and the third succeeds — the record is published and counted
as processed. -/
theorem publish_retry_spec_witness :
    (publishJson (fun i => if i < 2 then ⟨false, false, .ok, .ok, some (.chanErr 7)⟩
        else ⟨false, false, .ok, .ok, none⟩) 3 initialState).result = .ok () ∧
    (publishJson (fun i => if i < 2 then ⟨false, false, .ok, .ok, some (.chanErr 7)⟩
        else ⟨false, false, .ok, .ok, none⟩) 3 initialState).attempts = 3 := by
  have h := (publish_retry_spec (fun i => if i < 2 then
        ⟨false, false, .ok, .ok, some (.chanErr 7)⟩
      else ⟨false, false, .ok, .ok, none⟩) initialState).2.2
    (.chanErr 7) (.chanErr 7)
    ⟨some (0, false), some false, 1⟩ ⟨some (0, false), some false, 1⟩
    ⟨some (0, false), some false, 1⟩
    [.openConn 0, .openChan 0, .declareQueue 0 true, .publish 0]
    [.publish 0] [.publish 0]
    rfl rfl rfl
  exact ⟨h.1, h.2.1⟩

/-- C10: calling `publish_json` with a non-positive `retry_count` returns
normally without a single publish attempt and without raising — the payload
is silently dropped while reporting apparent success, because
`range(retry_count)` is empty. -/
theorem publish_nonpositive_retry_noop (env : Nat → AttemptEnv) (st : RState)
    (rc : Int) (h : rc ≤ 0) :
    publishJson env rc st = ⟨.ok (), st, [], 0⟩ := by
  have h0 : rc.toNat = 0 := Int.toNat_of_nonpos h
  rw [publishJson, h0]
  rfl

/-- C10 witness: `retry_count = -1` on a never-connected client. -/
theorem publish_nonpositive_retry_noop_witness :
    publishJson (fun _ => ⟨false, false, .ok, .ok, none⟩) (-1) initialState
      = ⟨.ok (), initialState, [], 0⟩ :=
  publish_nonpositive_retry_noop (fun _ => ⟨false, false, .ok, .ok, none⟩)
    initialState (-1) (by decide)

/-! ### Timestamp formatting lemmas -/

/-- Helper: reading back a printed digit. -/
theorem digitVal_digitChar : ∀ k, k < 10 → digitVal (digitChar k) = some k := by decide

/-- Helper: reading back a two-digit zero-padded number. -/
theorem read2_pad2 (n : Nat) (h : n < 100) (rest : List Char) :
    read2 (pad2L n ++ rest) = some (n, rest) := by
  have h1 := digitVal_digitChar (n / 10 % 10) (Nat.mod_lt _ (by norm_num))
  have h2 := digitVal_digitChar (n % 10) (Nat.mod_lt _ (by norm_num))
  show read2 (digitChar (n / 10 % 10) :: digitChar (n % 10) :: rest) = some (n, rest)
  simp only [read2, h1, h2]
  have hn : n / 10 % 10 * 10 + n % 10 = n := by omega
  rw [hn]

/-- Helper: reading back a four-digit zero-padded number. -/
theorem read4_pad4 (n : Nat) (h : n < 10000) (rest : List Char) :
    read4 (pad4L n ++ rest) = some (n, rest) := by
  have h1 := digitVal_digitChar (n / 1000 % 10) (Nat.mod_lt _ (by norm_num))
  have h2 := digitVal_digitChar (n / 100 % 10) (Nat.mod_lt _ (by norm_num))
  have h3 := digitVal_digitChar (n / 10 % 10) (Nat.mod_lt _ (by norm_num))
  have h4 := digitVal_digitChar (n % 10) (Nat.mod_lt _ (by norm_num))
  show read4 (digitChar (n / 1000 % 10) :: digitChar (n / 100 % 10) ::
    digitChar (n / 10 % 10) :: digitChar (n % 10) :: rest) = some (n, rest)
  simp only [read4, h1, h2, h3, h4]
  have hn : n / 1000 % 10 * 1000 + n / 100 % 10 * 100 + n / 10 % 10 * 10 + n % 10 = n := by
    omega
  rw [hn]

/-- Helper: consuming an expected character. -/
theorem expectChar_self (c : Char) (rest : List Char) :
    expectChar c (c :: rest) = some rest := by
  simp [expectChar]

/-- Helper: reading back a final two-digit zero-padded number. -/
theorem read2_pad2_end (n : Nat) (h : n < 100) : read2 (pad2L n) = some (n, []) := by
  have h0 := read2_pad2 n h []
  rw [List.append_nil] at h0
  exact h0

/-- Helper: the ISO parser inverts the ISO printer on in-range fields. -/
theorem parseIso_isoformatDT (y mo da hh mi ss : Nat)
    (hy : y < 10000) (hmo : mo < 100) (hda : da < 100)
    (hhh : hh < 100) (hmi : mi < 100) (hss : ss < 100) :
    parseIso (isoformatDT (y, mo, da, hh, mi, ss)) = some (y, mo, da, hh, mi, ss) := by
  have e1 : (isoformatDT (y, mo, da, hh, mi, ss)).data =
      pad4L y ++ ('-' :: (pad2L mo ++ ('-' :: (pad2L da ++
        ('T' :: (pad2L hh ++ (':' :: (pad2L mi ++ (':' :: pad2L ss))))))))) := rfl
  unfold parseIso
  rw [e1]
  simp only [read4_pad4 y hy, expectChar_self, read2_pad2 mo hmo, read2_pad2 da hda,
    read2_pad2 hh hhh, read2_pad2 mi hmi, read2_pad2_end ss hss]

/-- Helper: the year walk lands inside the year it returns, at or after the
starting year, provided the fuel dominates the day count. -/
theorem yearFromF_spec : ∀ fuel y d, d ≤ fuel →
    (yearFromF fuel y d).2 < daysInYear (yearFromF fuel y d).1 ∧
    y ≤ (yearFromF fuel y d).1 := by
  intro fuel
  induction fuel with
  | zero =>
    intro y d h
    have hd : d = 0 := Nat.le_zero.mp h
    subst hd
    refine ⟨?_, Nat.le_refl y⟩
    show 0 < daysInYear y
    rw [daysInYear]
    split <;> omega
  | succ f ih =>
    intro y d h
    rw [yearFromF]
    by_cases hd : d < daysInYear y
    · rw [if_pos hd]
      exact ⟨hd, Nat.le_refl y⟩
    · rw [if_neg hd]
      have hy365 : 365 ≤ daysInYear y := by rw [daysInYear]; split <;> omega
      have h2 : d - daysInYear y ≤ f := by omega
      have h3 := ih (y + 1) (d - daysInYear y) h2
      exact ⟨h3.1, Nat.le_trans (Nat.le_succ y) h3.2⟩

set_option maxRecDepth 8192 in
/-- Helper: a day-of-year inside a leap year yields a valid month and
day-of-month. -/
theorem monthFrom_valid_leap : ∀ doy, doy < 366 →
    1 ≤ (monthFrom true doy).1 ∧ (monthFrom true doy).1 ≤ 12 ∧
    (monthFrom true doy).2 < daysInMonth true (monthFrom true doy).1 := by decide

set_option maxRecDepth 8192 in
/-- Helper: a day-of-year inside a common year yields a valid month and
day-of-month. -/
theorem monthFrom_valid_noleap : ∀ doy, doy < 365 →
    1 ≤ (monthFrom false doy).1 ∧ (monthFrom false doy).1 ≤ 12 ∧
    (monthFrom false doy).2 < daysInMonth false (monthFrom false doy).1 := by decide

/-- Helper: no month is longer than 31 days. -/
theorem daysInMonth_le (leap : Bool) (m : Nat) : daysInMonth leap m ≤ 31 := by
  rw [daysInMonth]
  split
  · split <;> omega
  · split <;> omega

/-- Helper: a timestamp the model converts successfully formats as a valid
ISO-8601 date-time. -/
theorem isoformatDT_valid (t : Nat) (dt : Nat × Nat × Nat × Nat × Nat × Nat)
    (h : fromtimestamp t = some dt) :
    isValidIso (isoformatDT dt) = true := by
  obtain ⟨y, mo, da, hh, mi, ss⟩ := dt
  rw [fromtimestamp] at h
  by_cases hy : (civilFromDays (t / 86400)).1 ≤ 9999
  · rw [if_pos hy] at h
    have hys := yearFromF_spec (t / 86400 + 1) 1970 (t / 86400) (Nat.le_succ _)
    simp only [Option.some.injEq, Prod.mk.injEq] at h
    obtain ⟨hy1, hmo1, hda1, hhh1, hmi1, hss1⟩ := h
    have hcy : (civilFromDays (t / 86400)).1 = (yearFrom (t / 86400)).1 := rfl
    have hcm : (civilFromDays (t / 86400)).2.1
        = (monthFrom (isLeap (yearFrom (t / 86400)).1) (yearFrom (t / 86400)).2).1 := rfl
    have hcd : (civilFromDays (t / 86400)).2.2
        = (monthFrom (isLeap (yearFrom (t / 86400)).1) (yearFrom (t / 86400)).2).2 + 1 := rfl
    have hdoy : (yearFrom (t / 86400)).2 < daysInYear (yearFrom (t / 86400)).1 := hys.1
    have hmbound : 1 ≤ (civilFromDays (t / 86400)).2.1 ∧
        (civilFromDays (t / 86400)).2.1 ≤ 12 ∧
        (civilFromDays (t / 86400)).2.2 - 1
          < daysInMonth (isLeap (yearFrom (t / 86400)).1) (civilFromDays (t / 86400)).2.1 := by
      rw [hcm, hcd]
      cases hleap : isLeap (yearFrom (t / 86400)).1 with
      | true =>
        have hlt : (yearFrom (t / 86400)).2 < 366 := by
          rw [daysInYear, hleap] at hdoy
          simpa using hdoy
        have hv := monthFrom_valid_leap (yearFrom (t / 86400)).2 hlt
        exact ⟨hv.1, hv.2.1, by simpa using hv.2.2⟩
      | false =>
        have hlt : (yearFrom (t / 86400)).2 < 365 := by
          rw [daysInYear, hleap] at hdoy
          simpa using hdoy
        have hv := monthFrom_valid_noleap (yearFrom (t / 86400)).2 hlt
        exact ⟨hv.1, hv.2.1, by simpa using hv.2.2⟩
    have hmo12 : 1 ≤ mo ∧ mo ≤ 12 := by
      rw [← hmo1]
      exact ⟨hmbound.1, hmbound.2.1⟩
    have hdab : 1 ≤ da ∧ da ≤ daysInMonth (isLeap y) mo := by
      constructor
      · rw [← hda1, hcd]; omega
      · rw [← hda1, ← hmo1, ← hy1, hcy]
        have := hmbound.2.2
        omega
    have hda31 : da ≤ 31 := Nat.le_trans hdab.2 (daysInMonth_le _ _)
    have hhh24 : hh < 24 := by rw [← hhh1]; omega
    have hmi60 : mi < 60 := by rw [← hmi1]; omega
    have hss60 : ss < 60 := by rw [← hss1]; omega
    have hy4 : y < 10000 := by rw [← hy1]; omega
    rw [isValidIso, parseIso_isoformatDT y mo da hh mi ss hy4 (by omega) (by omega)
      (by omega) (by omega) (by omega)]
    simp only [Bool.and_eq_true, decide_eq_true_eq]
    exact ⟨⟨⟨⟨⟨⟨hmo12.1, hmo12.2⟩, hdab.1⟩, hdab.2⟩, hhh24⟩, hmi60⟩, hss60⟩
  · rw [if_neg hy] at h
    cases h

/-! ### Path resolution lemmas -/

/-- Helper: normalization output contains no `.` or `..` component. -/
theorem normStack_noDots : ∀ (l stack : List String),
    (∀ c ∈ stack, ¬ c = "." ∧ ¬ c = "..") →
    ∀ c ∈ normStack stack l, ¬ c = "." ∧ ¬ c = ".." := by
  intro l
  induction l with
  | nil =>
    intro stack h c hc
    rw [normStack] at hc
    exact h c (List.mem_reverse.mp hc)
  | cons x rest ih =>
    intro stack h c hc
    rw [normStack] at hc
    by_cases h1 : x = "."
    · rw [if_pos h1] at hc
      exact ih stack h c hc
    · rw [if_neg h1] at hc
      by_cases h2 : x = ".."
      · rw [if_pos h2] at hc
        refine ih _ ?_ c hc
        intro c' hcd
        exact h c' (List.mem_of_mem_drop hcd)
      · rw [if_neg h2] at hc
        refine ih _ ?_ c hc
        intro c' hc'
        rcases List.mem_cons.mp hc' with rfl | hmem
        · exact ⟨h1, h2⟩
        · exact h c' hmem

/-- Helper: a resolved path is fully normalized. -/
theorem resolvePath_noDots (cwd : List String) (p : PyPath) :
    ∀ c ∈ resolvePath cwd p, ¬ c = "." ∧ ¬ c = ".." := by
  rw [resolvePath]
  split
  · exact normStack_noDots p.parts []
      (by intro c hc; exact absurd hc (List.not_mem_nil c))
  · exact normStack_noDots (cwd ++ p.parts) []
      (by intro c hc; exact absurd hc (List.not_mem_nil c))

/-- Helper: a rendered absolute path starts with the separator. -/
theorem startsWithSlash_renderAbs (comps : List String) :
    startsWithSlash (renderAbs comps) = true := by
  show (match ("/" ++ String.intercalate "/" comps).data with
    | '/' :: _ => true
    | _ => false) = true
  rw [String.data_append]
  rfl

/-- C4: when the metadata is readable (and its timestamp representable),
extraction succeeds and produces a record whose `name` is the path's final
component, whose `size_bytes` is exactly the reported size, whose `path` is
absolute and fully resolved, and whose `modified_ts` parses as a valid
ISO-8601 date-time; when `stat` or the timestamp conversion fails, no
record (in particular no partial record) is produced. -/
theorem file_to_message_spec (cwd : List String) (p : PyPath) (st : FileStat) :
    (fileToMessage cwd p none = none) ∧
    (fromtimestamp st.st_mtime = none → fileToMessage cwd p (some st) = none) ∧
    (∀ dt, fromtimestamp st.st_mtime = some dt →
      ∃ r, fileToMessage cwd p (some st) = some r ∧
        r.name = (p.parts.getLast?).getD "" ∧
        r.size_bytes = st.st_size ∧
        r.path = renderAbs (resolvePath cwd p) ∧
        startsWithSlash r.path = true ∧
        (∀ c ∈ resolvePath cwd p, ¬ c = "." ∧ ¬ c = "..") ∧
        isValidIso r.modified_ts = true) := by
  refine ⟨rfl, ?_, ?_⟩
  · intro h
    rw [fileToMessage, h]
  · intro dt h
    refine ⟨⟨renderAbs (resolvePath cwd p), p.pyName, st.st_size, isoformatDT dt⟩,
      ?_, rfl, rfl, rfl, startsWithSlash_renderAbs _, resolvePath_noDots cwd p,
      isoformatDT_valid st.st_mtime dt h⟩
    rw [fileToMessage, h]

/-- C4 witness: a relative path with a `..` segment and a concrete
timestamp (2023-11-14T22:13:20). -/
theorem file_to_message_spec_witness :
    ∃ r, fileToMessage ["home", "user"] ⟨false, ["docs", "..", "a.txt"]⟩
        (some ⟨1234, 1700000000⟩) = some r ∧
      r.name = ((["docs", "..", "a.txt"] : List String).getLast?).getD "" ∧
      r.size_bytes = (1234 : Nat) ∧
      r.path = renderAbs (resolvePath ["home", "user"] ⟨false, ["docs", "..", "a.txt"]⟩) ∧
      startsWithSlash r.path = true ∧
      (∀ c ∈ resolvePath ["home", "user"] ⟨false, ["docs", "..", "a.txt"]⟩,
        ¬ c = "." ∧ ¬ c = "..") ∧
      isValidIso r.modified_ts = true :=
  (file_to_message_spec ["home", "user"] ⟨false, ["docs", "..", "a.txt"]⟩
    ⟨1234, 1700000000⟩).2.2 (2023, 11, 14, 22, 13, 20) (by decide)

/-! ### Wire-format lemmas -/

/-- Helper: a literal consumes itself. -/
theorem expectLit_append : ∀ (lit rest : List Char), expectLit lit (lit ++ rest) = some rest := by
  intro lit
  induction lit with
  | nil => intro rest; rfl
  | cons c cs ih =>
    intro rest
    show expectLit (c :: cs) (c :: (cs ++ rest)) = some rest
    rw [expectLit, if_pos rfl]
    exact ih rest

/-- Helper: reading back a printed hexadecimal digit. -/
theorem hexVal_hexChar : ∀ k, k < 16 → hexVal (hexChar k) = some k := by decide

/-- Helper: printed digits are digits. -/
theorem digitChar_isDigit : ∀ k, k < 10 → (digitChar k).isDigit = true := by decide

/-- Helper: the code of a printed digit. -/
theorem digitChar_toNat : ∀ k, k < 10 → (digitChar k).toNat = 48 + k := by decide

/-- Helper: reading back a four-hex-digit group. -/
theorem readHex4_encode (v : Nat) (h : v < 65536) (rest : List Char) :
    readHex4 (hexChar (v / 4096) :: hexChar (v / 256 % 16) :: hexChar (v / 16 % 16) ::
      hexChar (v % 16) :: rest) = some (v, rest) := by
  have h1 := hexVal_hexChar (v / 4096) (by omega)
  have h2 := hexVal_hexChar (v / 256 % 16) (Nat.mod_lt _ (by norm_num))
  have h3 := hexVal_hexChar (v / 16 % 16) (Nat.mod_lt _ (by norm_num))
  have h4 := hexVal_hexChar (v % 16) (Nat.mod_lt _ (by norm_num))
  simp only [readHex4, h1, h2, h3, h4]
  have hv : v / 4096 * 4096 + v / 256 % 16 * 256 + v / 16 % 16 * 16 + v % 16 = v := by omega
  rw [hv]

/-- Helper: reading back a `00XX` control-character group. -/
theorem readHex4_control (t : Nat) (h : t < 256) (rest : List Char) :
    readHex4 ('0' :: '0' :: hexChar (t / 16) :: hexChar (t % 16) :: rest) = some (t, rest) := by
  have h3 := hexVal_hexChar (t / 16) (by omega)
  have h4 := hexVal_hexChar (t % 16) (Nat.mod_lt _ (by norm_num))
  have h0 : hexVal '0' = some 0 := rfl
  simp only [readHex4, h0, h3, h4]
  have hv : 0 * 4096 + 0 * 256 + t / 16 * 16 + t % 16 = t := by omega
  rw [hv]

/-- Helper: a `Char` is never a UTF-16 surrogate and is below `0x110000`. -/
theorem char_valid_range (c : Char) :
    c.toNat < 55296 ∨ (57343 < c.toNat ∧ c.toNat < 1114112) := c.valid

/-- Helper: an escape is never the empty sequence. -/
theorem escChar_cons (c : Char) : ∃ x xs, escChar c = x :: xs := by
  rw [escChar]
  by_cases h1 : c = '"'
  · rw [if_pos h1]; exact ⟨_, _, rfl⟩
  rw [if_neg h1]
  by_cases h2 : c = '\\'
  · rw [if_pos h2]; exact ⟨_, _, rfl⟩
  rw [if_neg h2]
  by_cases h3 : c = '\n'
  · rw [if_pos h3]; exact ⟨_, _, rfl⟩
  rw [if_neg h3]
  by_cases h4 : c = '\t'
  · rw [if_pos h4]; exact ⟨_, _, rfl⟩
  rw [if_neg h4]
  by_cases h5 : c = '\r'
  · rw [if_pos h5]; exact ⟨_, _, rfl⟩
  rw [if_neg h5]
  by_cases h6 : c.toNat = 8
  · rw [if_pos h6]; exact ⟨_, _, rfl⟩
  rw [if_neg h6]
  by_cases h7 : c.toNat = 12
  · rw [if_pos h7]; exact ⟨_, _, rfl⟩
  rw [if_neg h7]
  by_cases h8 : c.toNat < 32
  · rw [if_pos h8]; exact ⟨_, _, rfl⟩
  rw [if_neg h8]
  by_cases h9 : c.toNat < 127
  · rw [if_pos h9]; exact ⟨_, _, rfl⟩
  rw [if_neg h9]
  by_cases h10 : c.toNat < 65536
  · rw [if_pos h10]; exact ⟨_, _, rfl⟩
  rw [if_neg h10]
  exact ⟨_, _, rfl⟩

/-- Helper: every escape produces at least one character. -/
theorem escChar_length_pos (c : Char) : 1 ≤ (escChar c).length := by
  obtain ⟨x, xs, h⟩ := escChar_cons c
  rw [h, List.length_cons]
  omega

/-- Helper: escaping never shortens a string. -/
theorem escapeL_length_ge (s : List Char) : s.length ≤ (escapeL s).length := by
  induction s with
  | nil => simp [escapeL]
  | cons c cs ih =>
    show (c :: cs).length ≤ (escChar c ++ escapeL cs).length
    rw [List.length_append, List.length_cons]
    have := escChar_length_pos c
    omega

/-- Helper: one parse step over an escaped quote. -/
theorem readStr_escQuote (f : Nat) (X : List Char) :
    readStrBodyF (f + 1) ('\\' :: '"' :: X)
      = (readStrBodyF f X).map (fun p => ('"' :: p.1, p.2)) := by
  simp [readStrBodyF]

/-- Helper: one parse step over an escaped backslash. -/
theorem readStr_escBackslash (f : Nat) (X : List Char) :
    readStrBodyF (f + 1) ('\\' :: '\\' :: X)
      = (readStrBodyF f X).map (fun p => ('\\' :: p.1, p.2)) := by
  simp [readStrBodyF]

/-- Helper: one parse step over an escaped newline. -/
theorem readStr_escN (f : Nat) (X : List Char) :
    readStrBodyF (f + 1) ('\\' :: 'n' :: X)
      = (readStrBodyF f X).map (fun p => ('\n' :: p.1, p.2)) := by
  simp [readStrBodyF]

/-- Helper: one parse step over an escaped tab. -/
theorem readStr_escT (f : Nat) (X : List Char) :
    readStrBodyF (f + 1) ('\\' :: 't' :: X)
      = (readStrBodyF f X).map (fun p => ('\t' :: p.1, p.2)) := by
  simp [readStrBodyF]

/-- Helper: one parse step over an escaped carriage return. -/
theorem readStr_escR (f : Nat) (X : List Char) :
    readStrBodyF (f + 1) ('\\' :: 'r' :: X)
      = (readStrBodyF f X).map (fun p => ('\r' :: p.1, p.2)) := by
  simp [readStrBodyF]

/-- Helper: one parse step over an escaped backspace. -/
theorem readStr_escB (f : Nat) (X : List Char) :
    readStrBodyF (f + 1) ('\\' :: 'b' :: X)
      = (readStrBodyF f X).map (fun p => (Char.ofNat 8 :: p.1, p.2)) := by
  simp [readStrBodyF]

/-- Helper: one parse step over an escaped form feed. -/
theorem readStr_escF (f : Nat) (X : List Char) :
    readStrBodyF (f + 1) ('\\' :: 'f' :: X)
      = (readStrBodyF f X).map (fun p => (Char.ofNat 12 :: p.1, p.2)) := by
  simp [readStrBodyF]

/-- Helper: one parse step over a literal character. -/
theorem readStr_lit (f : Nat) (c : Char) (h1 : ¬ c = '"') (h2 : ¬ c = '\\')
    (X : List Char) :
    readStrBodyF (f + 1) (c :: X)
      = (readStrBodyF f X).map (fun p => (c :: p.1, p.2)) := by
  simp [readStrBodyF, h1, h2]

/-- Helper: one parse step over a non-surrogate `\uXXXX` group. -/
theorem readStr_u (f : Nat) (v : Nat) (hv : v < 65536) (hns : v < 55296 ∨ 57343 < v)
    (X : List Char) :
    readStrBodyF (f + 1) ('\\' :: 'u' :: hexChar (v / 4096) :: hexChar (v / 256 % 16) ::
      hexChar (v / 16 % 16) :: hexChar (v % 16) :: X)
      = (readStrBodyF f X).map (fun p => (Char.ofNat v :: p.1, p.2)) := by
  have hns1 : ¬(55296 ≤ v ∧ v ≤ 56319) := by omega
  have hns2 : ¬(56320 ≤ v ∧ v ≤ 57343) := by omega
  simp [readStrBodyF, readHex4_encode v hv, hns1, hns2]

/-- Helper: one parse step over a `\u00XX` control group. -/
theorem readStr_u00 (f : Nat) (t : Nat) (ht : t < 256) (X : List Char) :
    readStrBodyF (f + 1) ('\\' :: 'u' :: '0' :: '0' :: hexChar (t / 16) ::
      hexChar (t % 16) :: X)
      = (readStrBodyF f X).map (fun p => (Char.ofNat t :: p.1, p.2)) := by
  have hns1 : ¬(55296 ≤ t ∧ t ≤ 56319) := by omega
  have hns2 : ¬(56320 ≤ t ∧ t ≤ 57343) := by omega
  simp [readStrBodyF, readHex4_control t ht, hns1, hns2]

/-- Helper: one parse step over a surrogate pair. -/
theorem readStr_surr (f : Nat) (v lo : Nat)
    (hv : 55296 ≤ v ∧ v ≤ 56319) (hlo : 56320 ≤ lo ∧ lo ≤ 57343) (X : List Char) :
    readStrBodyF (f + 1) ('\\' :: 'u' :: hexChar (v / 4096) :: hexChar (v / 256 % 16) ::
      hexChar (v / 16 % 16) :: hexChar (v % 16) :: '\\' :: 'u' :: hexChar (lo / 4096) ::
      hexChar (lo / 256 % 16) :: hexChar (lo / 16 % 16) :: hexChar (lo % 16) :: X)
      = (readStrBodyF f X).map (fun p =>
          (Char.ofNat (65536 + (v - 55296) * 1024 + (lo - 56320)) :: p.1, p.2)) := by
  simp [readStrBodyF, readHex4_encode v (by omega), readHex4_encode lo (by omega), hv, hlo]

/-- Helper: the string-body reader inverts `json.dumps` escaping, stopping
at the closing quote, whenever its fuel covers the decoded length. -/
theorem readStrBodyF_escape : ∀ (s : List Char) (fuel : Nat) (rest : List Char),
    s.length + 1 ≤ fuel →
    readStrBodyF fuel (escapeL s ++ ('"' :: rest)) = some (s, rest) := by
  intro s
  induction s with
  | nil =>
    intro fuel rest h
    cases fuel with
    | zero => omega
    | succ f =>
      show readStrBodyF (f + 1) ([] ++ ('"' :: rest)) = some ([], rest)
      rw [List.nil_append]
      simp [readStrBodyF]
  | cons c cs ih =>
    intro fuel rest h
    cases fuel with
    | zero => rw [List.length_cons] at h; omega
    | succ f =>
      have hf : cs.length + 1 ≤ f := by rw [List.length_cons] at h; omega
      have hrec := ih f rest hf
      show readStrBodyF (f + 1) ((escChar c ++ escapeL cs) ++ ('"' :: rest))
        = some (c :: cs, rest)
      rw [List.append_assoc, escChar]
      by_cases h1 : c = '"'
      · subst h1
        rw [if_pos rfl]
        show readStrBodyF (f + 1) ('\\' :: '"' :: (escapeL cs ++ ('"' :: rest))) = _
        rw [readStr_escQuote, hrec]
        rfl
      rw [if_neg h1]
      by_cases h2 : c = '\\'
      · subst h2
        rw [if_pos rfl]
        show readStrBodyF (f + 1) ('\\' :: '\\' :: (escapeL cs ++ ('"' :: rest))) = _
        rw [readStr_escBackslash, hrec]
        rfl
      rw [if_neg h2]
      by_cases h3 : c = '\n'
      · subst h3
        rw [if_pos rfl]
        show readStrBodyF (f + 1) ('\\' :: 'n' :: (escapeL cs ++ ('"' :: rest))) = _
        rw [readStr_escN, hrec]
        rfl
      rw [if_neg h3]
      by_cases h4 : c = '\t'
      · subst h4
        rw [if_pos rfl]
        show readStrBodyF (f + 1) ('\\' :: 't' :: (escapeL cs ++ ('"' :: rest))) = _
        rw [readStr_escT, hrec]
        rfl
      rw [if_neg h4]
      by_cases h5 : c = '\r'
      · subst h5
        rw [if_pos rfl]
        show readStrBodyF (f + 1) ('\\' :: 'r' :: (escapeL cs ++ ('"' :: rest))) = _
        rw [readStr_escR, hrec]
        rfl
      rw [if_neg h5]
      by_cases h6 : c.toNat = 8
      · rw [if_pos h6]
        show readStrBodyF (f + 1) ('\\' :: 'b' :: (escapeL cs ++ ('"' :: rest))) = _
        rw [readStr_escB, hrec]
        show some (Char.ofNat 8 :: cs, rest) = some (c :: cs, rest)
        rw [← h6, Char.ofNat_toNat]
      rw [if_neg h6]
      by_cases h7 : c.toNat = 12
      · rw [if_pos h7]
        show readStrBodyF (f + 1) ('\\' :: 'f' :: (escapeL cs ++ ('"' :: rest))) = _
        rw [readStr_escF, hrec]
        show some (Char.ofNat 12 :: cs, rest) = some (c :: cs, rest)
        rw [← h7, Char.ofNat_toNat]
      rw [if_neg h7]
      by_cases h8 : c.toNat < 32
      · rw [if_pos h8]
        show readStrBodyF (f + 1) ('\\' :: 'u' :: '0' :: '0' :: hexChar (c.toNat / 16) ::
          hexChar (c.toNat % 16) :: (escapeL cs ++ ('"' :: rest))) = _
        rw [readStr_u00 f c.toNat (by omega), hrec]
        show some (Char.ofNat c.toNat :: cs, rest) = some (c :: cs, rest)
        rw [Char.ofNat_toNat]
      rw [if_neg h8]
      by_cases h9 : c.toNat < 127
      · rw [if_pos h9]
        show readStrBodyF (f + 1) (c :: (escapeL cs ++ ('"' :: rest))) = some (c :: cs, rest)
        rw [readStr_lit f c h1 h2, hrec]
        rfl
      rw [if_neg h9]
      by_cases h10 : c.toNat < 65536
      · rw [if_pos h10]
        show readStrBodyF (f + 1) ('\\' :: 'u' :: hexChar (c.toNat / 4096) ::
          hexChar (c.toNat / 256 % 16) :: hexChar (c.toNat / 16 % 16) ::
          hexChar (c.toNat % 16) :: (escapeL cs ++ ('"' :: rest))) = _
        rw [readStr_u f c.toNat (by omega)
          (by rcases char_valid_range c with hv | hv <;> omega), hrec]
        show some (Char.ofNat c.toNat :: cs, rest) = some (c :: cs, rest)
        rw [Char.ofNat_toNat]
      rw [if_neg h10]
      have hlt : c.toNat < 1114112 := by
        rcases char_valid_range c with hv | hv <;> omega
      show readStrBodyF (f + 1) ('\\' :: 'u' ::
        hexChar ((55296 + (c.toNat - 65536) / 1024) / 4096) ::
        hexChar ((55296 + (c.toNat - 65536) / 1024) / 256 % 16) ::
        hexChar ((55296 + (c.toNat - 65536) / 1024) / 16 % 16) ::
        hexChar ((55296 + (c.toNat - 65536) / 1024) % 16) :: '\\' :: 'u' ::
        hexChar ((56320 + (c.toNat - 65536) % 1024) / 4096) ::
        hexChar ((56320 + (c.toNat - 65536) % 1024) / 256 % 16) ::
        hexChar ((56320 + (c.toNat - 65536) % 1024) / 16 % 16) ::
        hexChar ((56320 + (c.toNat - 65536) % 1024) % 16) ::
        (escapeL cs ++ ('"' :: rest))) = some (c :: cs, rest)
      rw [readStr_surr f (55296 + (c.toNat - 65536) / 1024)
        (56320 + (c.toNat - 65536) % 1024)
        ⟨by omega, by omega⟩ ⟨by omega, by omega⟩, hrec]
      show some (Char.ofNat (65536 + (55296 + (c.toNat - 65536) / 1024 - 55296) * 1024 +
        (56320 + (c.toNat - 65536) % 1024 - 56320)) :: cs, rest) = some (c :: cs, rest)
      rw [show 65536 + (55296 + (c.toNat - 65536) / 1024 - 55296) * 1024 +
        (56320 + (c.toNat - 65536) % 1024 - 56320) = c.toNat from by omega, Char.ofNat_toNat]

/-- Helper: printed decimal digits are digit characters. -/
theorem natDigsF_isDigit : ∀ fuel n, ∀ c ∈ natDigsF fuel n, c.isDigit = true := by
  intro fuel
  induction fuel with
  | zero => intro n c hc; simp [natDigsF] at hc
  | succ f ih =>
    intro n c hc
    rw [natDigsF] at hc
    by_cases h : n < 10
    · rw [if_pos h] at hc
      rw [List.mem_singleton] at hc
      subst hc
      exact digitChar_isDigit n h
    · rw [if_neg h] at hc
      rcases List.mem_append.mp hc with hm | hm
      · exact ih (n / 10) c hm
      · rw [List.mem_singleton] at hm
        subst hm
        exact digitChar_isDigit (n % 10) (Nat.mod_lt _ (by norm_num))

/-- Helper: folding digit values back over the printed digits recovers the
number (with the accumulator scaled by the digit count). -/
theorem foldl_natDigsF : ∀ fuel n acc, n ≤ fuel →
    (natDigsF fuel n).foldl (fun a c => a * 10 + (c.toNat - 48)) acc
      = acc * 10 ^ (natDigsF fuel n).length + n := by
  intro fuel
  induction fuel with
  | zero =>
    intro n acc h
    have hn : n = 0 := by omega
    subst hn
    simp [natDigsF]
  | succ f ih =>
    intro n acc h
    rw [natDigsF]
    by_cases hn : n < 10
    · rw [if_pos hn]
      show acc * 10 + ((digitChar n).toNat - 48) = acc * 10 ^ ([digitChar n].length) + n
      rw [digitChar_toNat n hn, List.length_singleton, pow_one]
      omega
    · rw [if_neg hn]
      rw [List.foldl_append]
      have h10 : n / 10 ≤ f := by omega
      rw [ih (n / 10) acc h10]
      show (acc * 10 ^ (natDigsF f (n / 10)).length + n / 10) * 10 +
          ((digitChar (n % 10)).toNat - 48)
        = acc * 10 ^ (natDigsF f (n / 10) ++ [digitChar (n % 10)]).length + n
      rw [digitChar_toNat (n % 10) (Nat.mod_lt _ (by norm_num)),
        List.length_append, List.length_singleton, pow_succ, ← Nat.mul_assoc]
      generalize acc * 10 ^ (natDigsF f (n / 10)).length = Q
      omega

/-- Helper: a number always prints at least one digit. -/
theorem natDigs_ne_nil (n : Nat) : natDigs n ≠ [] := by
  rw [natDigs, natDigsF]
  by_cases h : n < 10
  · rw [if_pos h]; simp
  · rw [if_neg h]; simp

/-- Helper: value roundtrip for the digit printer. -/
theorem digitsToNat_natDigs (n : Nat) : digitsToNat (natDigs n) = n := by
  rw [digitsToNat, natDigs, foldl_natDigsF (n + 1) n 0 (Nat.le_succ n)]
  simp

/-- Helper: the digit scanner splits printed digits from a non-digit tail. -/
theorem takeDigits_spec : ∀ (ds rest : List Char),
    (∀ c ∈ ds, c.isDigit = true) →
    (∀ c, rest.head? = some c → c.isDigit = false) →
    takeDigits (ds ++ rest) = (ds, rest) := by
  intro ds
  induction ds with
  | nil =>
    intro rest _ hr
    cases rest with
    | nil => rfl
    | cons r rs =>
      show takeDigits (r :: rs) = ([], r :: rs)
      rw [takeDigits, hr r rfl]
      simp
  | cons d ds ih =>
    intro rest hds hr
    show takeDigits (d :: (ds ++ rest)) = (d :: ds, rest)
    rw [takeDigits, hds d (List.mem_cons_self d ds), if_pos rfl]
    rw [ih rest (fun c hc => hds c (List.mem_cons_of_mem d hc)) hr]

/-- Helper: reading back a printed number followed by a non-digit. -/
theorem readNat_natDigs (n : Nat) (rest : List Char)
    (hr : ∀ c, rest.head? = some c → c.isDigit = false) :
    readNat (natDigs n ++ rest) = some (n, rest) := by
  have ht := takeDigits_spec (natDigs n) rest (natDigsF_isDigit (n + 1) n) hr
  rw [readNat, ht]
  rw [if_neg (show ¬(((natDigs n, rest) : List Char × List Char).1 = []) from natDigs_ne_nil n)]
  show some (digitsToNat (natDigs n), rest) = some (n, rest)
  rw [digitsToNat_natDigs n]

/-- Helper: the decoded length never exceeds the fuel the parser grants. -/
theorem fuel_ok (s tail : List Char) :
    s.length + 1 ≤ (escapeL s ++ ('"' :: tail)).length + 1 := by
  rw [List.length_append]
  have := escapeL_length_ge s
  omega

/-- C9: serializing a FileRecord to the wire format produced by the
publisher (`json.dumps` text, sent as UTF-8 bytes) and parsing it back
yields exactly the same four fields with the same values — for every
record, whatever characters its strings contain. -/
theorem dumps_parse_roundtrip (r : FileRecord) :
    parseRecord (dumpsRecord r) = some r := by
  have e0 : (dumpsRecord r).data = litPath ++ (escapeL r.path.data ++ ('"' ::
      (litName ++ (escapeL r.name.data ++ ('"' :: (litSize ++ (natDigs r.size_bytes ++
        (litTs ++ (escapeL r.modified_ts.data ++ ('"' :: ['\x7d'])))))))))) := rfl
  have hB1 := readStrBodyF_escape r.path.data
    ((escapeL r.path.data ++ ('"' :: (litName ++ (escapeL r.name.data ++ ('"' ::
      (litSize ++ (natDigs r.size_bytes ++ (litTs ++ (escapeL r.modified_ts.data ++
        ('"' :: ['\x7d'])))))))))).length + 1)
    (litName ++ (escapeL r.name.data ++ ('"' :: (litSize ++ (natDigs r.size_bytes ++
      (litTs ++ (escapeL r.modified_ts.data ++ ('"' :: ['\x7d']))))))))
    (fuel_ok _ _)
  have hB2 := readStrBodyF_escape r.name.data
    ((escapeL r.name.data ++ ('"' :: (litSize ++ (natDigs r.size_bytes ++
      (litTs ++ (escapeL r.modified_ts.data ++ ('"' :: ['\x7d']))))))).length + 1)
    (litSize ++ (natDigs r.size_bytes ++ (litTs ++ (escapeL r.modified_ts.data ++
      ('"' :: ['\x7d'])))))
    (fuel_ok _ _)
  have hB3 := readStrBodyF_escape r.modified_ts.data
    ((escapeL r.modified_ts.data ++ ('"' :: ['\x7d'])).length + 1)
    ['\x7d']
    (fuel_ok _ _)
  have hNum := readNat_natDigs r.size_bytes
    (litTs ++ (escapeL r.modified_ts.data ++ ('"' :: ['\x7d'])))
    (by
      intro c hc
      rw [show ((litTs ++ (escapeL r.modified_ts.data ++ ('"' :: ['\x7d']))).head?)
        = some ',' from rfl] at hc
      injection hc with h
      subst h
      rfl)
  simp only [parseRecord, e0, expectLit_append, hB1, hB2, hB3, hNum]

end RFP
